import Mathlib

/-!
# A FAT-style filesystem over a fixed in-memory drive

Shallow embedding of `FATFilesystem` from `fat_filesystem-1.cpp`.

* `std::array` values are lists; every indexed access is bounds-checked against the
  declared array size and an out-of-range access has no defined result (`none`).
* `int` values are `Int`, `unsigned int filesize` is a `Nat`, characters and bytes are
  `Nat` codes (`0` is the NUL character).
* Every operation returns `Option (Status × FATFilesystem)`; `none` stands for
  undefined behaviour of the C++ program (out-of-range array access, signed overflow,
  a buffer overrun, or a chain walk that never ends).
-/

namespace FAT

/-- The enum `Status`. -/
inductive Status where
  | Ok
  | Error
  deriving DecidableEq, Repr

/-- Size of the drive in bytes. -/
def kMaxDriveSize : Nat := 1200
/-- Max filename length in the filesystem. -/
def kMaxFilenameSize : Nat := 16
/-- Max number of files in the directory. -/
def kMaxNumberFiles : Nat := 5
/-- The number of bytes of each block on the drive. -/
def kBlockSize : Int := 30
/-- The number of elements in the File Allocation Table (the scan bound). -/
def kTableSize : Nat := 30
/-- The end of file marker in the file allocation table. -/
def kEndOfFile : Int := -1
/-- Declared length of `fat_table_in_memory`: `kTableSize + 10`. -/
def kFatEntries : Nat := kTableSize + 10
/-- Largest value of a 32-bit `int`. -/
def kIntMax : Int := 2147483647

/-- The struct `FileEntry`; `name` is the 16-character array, `last_modified` is the
`double` field, which the program only ever sets to `0.0`. -/
structure FileEntry where
  name : List Nat
  starting_block : Int
  size : Int
  last_modified : Int
  deriving DecidableEq, Repr

/-- The value of `FileEntry()`: the default member initialisers of the struct
(`name{ "" }`, `starting_block{ 0 }`, `size{ 0 }`, `last_modified{ 0.0 }`). -/
def FileEntry.default : FileEntry :=
  { name := List.replicate kMaxFilenameSize 0, starting_block := 0, size := 0,
    last_modified := 0 }

/-- The struct `FATFilesystem`. -/
structure FATFilesystem where
  drive : List Nat
  root_directory_in_memory : List FileEntry
  fat_table_in_memory : List Int
  current_starting_block : Int
  block_chunk : List (Int × Int)
  deriving DecidableEq, Repr

/-- The table the constructor assigns to `fat_table_in_memory`. -/
def initialFat : List Int :=
  [-1, -1, -1, -1, -1, -1, -1, -1, -1, -1,
   11, 12, 13, 14, 15, 16, 17, 18, 19, 20, 21, 30,
   23, 24, 25, 26, 27, 28, 29, 30, 31, 32, 33, 34,
   35, 36, 37, 38, 39, 40]

/-- The constructor `FATFilesystem()`: zeroed drive, five entries with zeroed name,
`starting_block = kEndOfFile`, size 0; cursor 0; empty ledger. -/
def init : FATFilesystem :=
  { drive := List.replicate kMaxDriveSize 0
    root_directory_in_memory :=
      List.replicate kMaxNumberFiles
        { name := List.replicate kMaxFilenameSize 0, starting_block := kEndOfFile,
          size := 0, last_modified := 0 }
    fat_table_in_memory := initialFat
    current_starting_block := 0
    block_chunk := [] }

/-- Read `fat_table_in_memory[i]`; `none` when `i` is outside `0 .. kFatEntries - 1`. -/
def fatAt (fat : List Int) (i : Int) : Option Int :=
  if 0 ≤ i ∧ i < (kFatEntries : Int) then fat[i.toNat]? else none

/-- The rows `listDirectory` prints: for each entry, in directory order, whose
`starting_block != kEndOfFile`, the 16 name characters, the starting block and the size. -/
def listDirectory (s : FATFilesystem) : List (List Nat × Int × Int) :=
  (s.root_directory_in_memory.filter (fun e => e.starting_block != kEndOfFile)).map
    (fun e => (e.name, e.starting_block, e.size))

/-- First loop of `createFile`: the first index `i < kMaxNumberFiles` whose entry has
`starting_block == kEndOfFile`, or `kMaxNumberFiles` when the loop runs to its end.
The outer `none` is an access outside the directory array. -/
def findEmptyEntry (dir : List FileEntry) : Nat → Nat → Option Nat
  | 0, i => some i
  | n + 1, i =>
    match dir[i]? with
    | none => none
    | some e => if e.starting_block = kEndOfFile then some i else findEmptyEntry dir n (i + 1)

/-- The scan `for (j = current_starting_block; j < kTableSize; j++)` of `createFile`:
the first `j` with `fat[j] != kEndOfFile`, or `kEndOfFile` when the scan runs out.
The first argument counts the iterations left, `kTableSize - j`. -/
def findStartBlock (fat : List Int) : Nat → Int → Option Int
  | 0, _ => some kEndOfFile
  | n + 1, j =>
    match fatAt fat j with
    | none => none
    | some v => if v ≠ kEndOfFile then some j else findStartBlock fat n (j + 1)

/-- Result of the `while` loop of `createFile`. -/
inductive WalkResult where
  | undefined
  | error
  | done (current_block : Int)
  deriving DecidableEq, Repr

/-- The loop `while (current_size < filesize && fat[current_block] != kEndOfFile)` of
`createFile`, with its early `return Status::Error` when `current_size > filesize`.
Each iteration adds `kBlockSize` to `current_size`, so `filesize` iterations always
suffice (see `allocWalk_fuel`); the first argument is that iteration budget. -/
def allocWalk (fat : List Int) (filesize : Nat) : Nat → Int → Int → WalkResult
  | 0, current_block, current_size =>
    if current_size < (filesize : Int) then .undefined else .done current_block
  | n + 1, current_block, current_size =>
    if current_size < (filesize : Int) then
      match fatAt fat current_block with
      | none => .undefined
      | some next_block =>
        if next_block ≠ kEndOfFile then
          if current_size + kBlockSize > kIntMax then .undefined
          else if current_size + kBlockSize > (filesize : Int) then .error
          else allocWalk fat filesize n next_block (current_size + kBlockSize)
        else .done current_block
    else .done current_block

/-- Second directory loop of `createFile`: the first index `i < kMaxNumberFiles` whose
entry has `name[0] == 0`, if any. -/
def findEmptyName (dir : List FileEntry) : Nat → Nat → Option (Option Nat)
  | 0, _ => some none
  | n + 1, i =>
    match dir[i]? with
    | none => none
    | some e => if e.name.head? = some 0 then some (some i) else findEmptyName dir n (i + 1)

/-- The call `std::copy(src.begin(), src.end(), dst.begin())` into a name array:
the first `src.length` characters are overwritten; `none` when `src` is longer than
the array. -/
def copyInto (dst src : List Nat) : Option (List Nat) :=
  if src.length ≤ dst.length then some (src ++ dst.drop src.length) else none

/-- Conversion of `unsigned int` to `int` in `entry.size = filesize`. -/
def toInt32 (n : Nat) : Int :=
  if n % 4294967296 < 2147483648 then (n % 4294967296 : Nat) else (n % 4294967296 : Nat) - 4294967296

/-- The loop that populates the drive: `count` iterations of
`drive[current_byte] = value; current_byte++`. -/
def fillDrive (value : Nat) : Nat → Int → List Nat → Option (List Nat)
  | 0, _, drive => some drive
  | n + 1, current_byte, drive =>
    if 0 ≤ current_byte ∧ current_byte < (kMaxDriveSize : Int) then
      fillDrive value n (current_byte + 1) (drive.set current_byte.toNat value)
    else none

/-- The method `createFile(filename, filesize, value)`. -/
def createFile (s : FATFilesystem) (filename : List Nat) (filesize : Nat) (value : Nat) :
    Option (Status × FATFilesystem) :=
  match findEmptyEntry s.root_directory_in_memory kMaxNumberFiles 0 with
  | none => none
  | some i =>
    if i = kMaxNumberFiles then some (.Error, s)
    else
      match findStartBlock s.fat_table_in_memory
          ((kTableSize : Int) - s.current_starting_block).toNat s.current_starting_block with
      | none => none
      | some start_block =>
        match allocWalk s.fat_table_in_memory filesize filesize start_block kBlockSize with
        | .undefined => none
        | .error => some (.Error, s)
        | .done current_block =>
          match fatAt s.fat_table_in_memory current_block with
          | none => none
          | some saved =>
            let block_chunk := s.block_chunk ++ [(start_block, saved)]
            let fat := s.fat_table_in_memory.set current_block.toNat kEndOfFile
            let cursor := current_block + 1
            let dir? : Option (List FileEntry) :=
              match findEmptyName s.root_directory_in_memory kMaxNumberFiles 0 with
              | none => none
              | some none => some s.root_directory_in_memory
              | some (some k) =>
                match s.root_directory_in_memory[k]? with
                | none => none
                | some e =>
                  match copyInto e.name filename with
                  | none => none
                  | some nm =>
                    some (s.root_directory_in_memory.set k
                      { name := nm, starting_block := start_block, size := toInt32 filesize,
                        last_modified := 0 })
            match dir? with
            | none => none
            | some dir =>
              match fillDrive value filesize (start_block * kBlockSize) s.drive with
              | none => none
              | some drive =>
                some (.Ok,
                  { drive := drive, root_directory_in_memory := dir,
                    fat_table_in_memory := fat, current_starting_block := cursor,
                    block_chunk := block_chunk })

/-- The C string held in a name array (`name.data()`): the characters before the first
NUL; `none` when the array holds no NUL, so that reading it runs past the array. -/
def cString (name : List Nat) : Option (List Nat) :=
  if 0 ∈ name then some (name.takeWhile (fun c => c != 0)) else none

/-- The lookup loop shared by `remove`, `rename` and `print`: the first index
`i < kMaxNumberFiles` with `name.data() == filename`; `some none` is `index == -1`. -/
def findByName (dir : List FileEntry) (filename : List Nat) : Nat → Nat → Option (Option Nat)
  | 0, _ => some none
  | n + 1, i =>
    match dir[i]? with
    | none => none
    | some e =>
      match cString e.name with
      | none => none
      | some c => if c = filename then some (some i) else findByName dir filename n (i + 1)

/-- The loop `while (fat[current_block] != kEndOfFile) current_block = fat[current_block]`
of `remove`. A walk still running after `kFatEntries` hops has revisited a block and
never ends; the first argument is that hop budget. -/
def chainTail (fat : List Int) : Nat → Int → Option Int
  | 0, _ => none
  | n + 1, current_block =>
    match fatAt fat current_block with
    | none => none
    | some next_block =>
      if next_block ≠ kEndOfFile then chainTail fat n next_block else some current_block

/-- The ledger loop of `remove`: every chunk whose first component equals the starting
block overwrites `fat[current_block]` with its second component. -/
def spliceBack (start current_block : Int) : List (Int × Int) → List Int → List Int
  | [], fat => fat
  | c :: cs, fat =>
    spliceBack start current_block cs
      (if c.1 = start then fat.set current_block.toNat c.2 else fat)

/-- The method `remove(filename)`. -/
def remove (s : FATFilesystem) (filename : List Nat) : Option (Status × FATFilesystem) :=
  match findByName s.root_directory_in_memory filename kMaxNumberFiles 0 with
  | none => none
  | some none => some (.Error, s)
  | some (some index) =>
    match s.root_directory_in_memory[index]? with
    | none => none
    | some e =>
      match chainTail s.fat_table_in_memory (kFatEntries + 1) e.starting_block with
      | none => none
      | some current_block =>
        some (.Ok,
          { s with
            fat_table_in_memory :=
              spliceBack e.starting_block current_block s.block_chunk s.fat_table_in_memory
            root_directory_in_memory :=
              s.root_directory_in_memory.set index FileEntry.default })

/-- The method `rename(filename, new_filename)`. -/
def rename (s : FATFilesystem) (filename new_filename : List Nat) :
    Option (Status × FATFilesystem) :=
  match findByName s.root_directory_in_memory filename kMaxNumberFiles 0 with
  | none => none
  | some none => some (.Error, s)
  | some (some index) =>
    match s.root_directory_in_memory[index]? with
    | none => none
    | some e =>
      match copyInto (List.replicate kMaxFilenameSize 0) new_filename with
      | none => none
      | some nm =>
        some (.Ok,
          { s with
            root_directory_in_memory := s.root_directory_in_memory.set index { e with name := nm } })

/-- The output loop of `print`: `for (i = current_byte; i < size; i++)` writes
`drive[current_byte]` each time; `current_byte` is never advanced. -/
def printLoop (drive : List Nat) (current_byte : Int) : Nat → Option (List Nat)
  | 0 => some []
  | n + 1 =>
    if 0 ≤ current_byte ∧ current_byte < (kMaxDriveSize : Int) then
      match drive[current_byte.toNat]?, printLoop drive current_byte n with
      | some b, some rest => some (b :: rest)
      | _, _ => none
    else none

/-- The method `print(filename)`, returning the status, the (untouched) filesystem and
the bytes written to the output before the final newline. -/
def print (s : FATFilesystem) (filename : List Nat) :
    Option (Status × FATFilesystem × List Nat) :=
  match findByName s.root_directory_in_memory filename kMaxNumberFiles 0 with
  | none => none
  | some none => some (.Error, s, [])
  | some (some index) =>
    match s.root_directory_in_memory[index]? with
    | none => none
    | some entry =>
      let current_byte := entry.starting_block * kBlockSize
      if current_byte < -kIntMax - 1 ∨ kIntMax < current_byte then none
      else
        match printLoop s.drive current_byte (entry.size - current_byte).toNat with
        | none => none
        | some out => some (.Ok, s, out)

/-- The blocks visited from `start` by following next-pointers up to and including the
first entry that holds `kEndOfFile` (the walk of `remove`, collecting the blocks). -/
def fileChain (fat : List Int) : Nat → Int → Option (List Int)
  | 0, _ => none
  | n + 1, current_block =>
    match fatAt fat current_block with
    | none => none
    | some next_block =>
      if next_block ≠ kEndOfFile then
        (fileChain fat n next_block).map (fun rest => current_block :: rest)
      else some [current_block]

/-- The state-changing commands of the console loop in `main`. -/
inductive Op where
  | create (filename : List Nat) (filesize : Nat) (value : Nat)
  | remove (filename : List Nat)
  | rename (filename new_filename : List Nat)
  deriving DecidableEq, Repr

/-- One command applied to the filesystem. -/
def step (s : FATFilesystem) : Op → Option (Status × FATFilesystem)
  | .create filename filesize value => createFile s filename filesize value
  | .remove filename => remove s filename
  | .rename filename new_filename => rename s filename new_filename

/-- A sequence of commands applied in order: the statuses returned and the final state;
`none` as soon as one command has no defined result. -/
def exec (s : FATFilesystem) : List Op → Option (List Status × FATFilesystem)
  | [] => some ([], s)
  | op :: ops =>
    match step s op with
    | none => none
    | some (st, s') =>
      match exec s' ops with
      | none => none
      | some (sts, s'') => some (st :: sts, s'')

/-- States reachable from the constructor's state by a sequence of commands. -/
def Reachable (s : FATFilesystem) : Prop :=
  ∃ ops sts, exec init ops = some (sts, s)

/-- Five creations of two-byte files `a`, `b`, `c`, `d`, `e` filled with `'A'` .. `'E'`. -/
def fiveCreates : List Op :=
  [.create [97] 2 65, .create [98] 2 66, .create [99] 2 67, .create [100] 2 68,
   .create [101] 2 69]

/-- The state `fiveCreates` leads to from `init`: the files occupy blocks 10 to 14, the
cursor is 15 and the directory has no free entry. -/
def fiveFiles : FATFilesystem :=
  { drive :=
      List.replicate 300 0 ++ [65, 65] ++ List.replicate 28 0 ++ [66, 66] ++
        List.replicate 28 0 ++ [67, 67] ++ List.replicate 28 0 ++ [68, 68] ++
        List.replicate 28 0 ++ [69, 69] ++ List.replicate 778 0
    root_directory_in_memory :=
      [ { name := 97 :: List.replicate 15 0, starting_block := 10, size := 2, last_modified := 0 },
        { name := 98 :: List.replicate 15 0, starting_block := 11, size := 2, last_modified := 0 },
        { name := 99 :: List.replicate 15 0, starting_block := 12, size := 2, last_modified := 0 },
        { name := 100 :: List.replicate 15 0, starting_block := 13, size := 2, last_modified := 0 },
        { name := 101 :: List.replicate 15 0, starting_block := 14, size := 2, last_modified := 0 } ]
    fat_table_in_memory :=
      [-1, -1, -1, -1, -1, -1, -1, -1, -1, -1,
       -1, -1, -1, -1, -1, 16, 17, 18, 19, 20, 21, 30,
       23, 24, 25, 26, 27, 28, 29, 30, 31, 32, 33, 34,
       35, 36, 37, 38, 39, 40]
    current_starting_block := 15
    block_chunk := [(10, 11), (11, 12), (12, 13), (13, 14), (14, 15)] }


/-- The state after `createFile("a", 2, 'A')` on the fresh filesystem: one file in block
10, the cursor at 11 and one ledger entry. -/
def oneFile : FATFilesystem :=
  { drive := List.replicate 300 0 ++ [65, 65] ++ List.replicate 898 0
    root_directory_in_memory :=
      { name := 97 :: List.replicate 15 0, starting_block := 10, size := 2, last_modified := 0 } ::
        List.replicate 4
          { name := List.replicate 16 0, starting_block := -1, size := 0, last_modified := 0 }
    fat_table_in_memory := initialFat.set 10 (-1)
    current_starting_block := 11
    block_chunk := [(10, 11)] }

/-- The state after `createFile("a", 2, 'A')` and `createFile("a", 2, 'B')` on the fresh
filesystem: two files with the same name `a`, in blocks 10 and 11. -/
def twoFilesNamedA : FATFilesystem :=
  { drive :=
      List.replicate 300 0 ++ [65, 65] ++ List.replicate 28 0 ++ [66, 66] ++
        List.replicate 868 0
    root_directory_in_memory :=
      [ { name := 97 :: List.replicate 15 0, starting_block := 10, size := 2, last_modified := 0 },
        { name := 97 :: List.replicate 15 0, starting_block := 11, size := 2, last_modified := 0 },
        { name := List.replicate 16 0, starting_block := -1, size := 0, last_modified := 0 },
        { name := List.replicate 16 0, starting_block := -1, size := 0, last_modified := 0 },
        { name := List.replicate 16 0, starting_block := -1, size := 0, last_modified := 0 } ]
    fat_table_in_memory := (initialFat.set 10 (-1)).set 11 (-1)
    current_starting_block := 12
    block_chunk := [(10, 11), (11, 12)] }

/-- A directory entry with starting block `start` and size `size` holds a file whose
chain is `chain`: following next-pointers from `start` visits exactly `chain` and ends at
an end-of-chain entry, the chain's capacity covers the size, and every chain block lies
past the reserved region and before the allocation cursor. -/
def LiveChain (fat : List Int) (cursor start size : Int) (chain : List Int) : Prop :=
  fileChain fat kFatEntries start = some chain ∧
  size ≤ kBlockSize * (chain.length : Int) ∧
  ∀ b ∈ chain, 10 ≤ b ∧ b < cursor

/-- The three kinds of directory entry met in reachable states: free (the constructor's
sentinel), reset by `remove` (the value `FileEntry()`), or holding a file. -/
def EntryKind (fat : List Int) (cursor : Int) (e : FileEntry) : Prop :=
  e.starting_block = kEndOfFile ∨ (e.starting_block = 0 ∧ e.size = 0) ∨
    ∃ chain, LiveChain fat cursor e.starting_block e.size chain

/-- The invariant of reachable states used for the size bound: the table has its 40
entries, entry 0 is an end-of-chain entry, every entry from the cursor on still holds
the constructor's value, no ledger chunk starts at block 0, every directory entry is of
one of the three kinds, and files in different directory slots have disjoint chains. -/
structure Inv (s : FATFilesystem) : Prop where
  fat_len : s.fat_table_in_memory.length = kFatEntries
  cursor_nonneg : 0 ≤ s.current_starting_block
  block0 : s.fat_table_in_memory[0]? = some kEndOfFile
  pristine : ∀ i : Nat, i < kFatEntries → s.current_starting_block ≤ (i : Int) →
    s.fat_table_in_memory[i]? = initialFat[i]?
  ledger : ∀ p ∈ s.block_chunk, p.1 ≠ 0
  entries : ∀ (i : Nat) (e : FileEntry), s.root_directory_in_memory[i]? = some e →
    EntryKind s.fat_table_in_memory s.current_starting_block e
  disjoint : ∀ (i j : Nat) (e e' : FileEntry) (c c' : List Int), i ≠ j →
    s.root_directory_in_memory[i]? = some e → s.root_directory_in_memory[j]? = some e' →
    LiveChain s.fat_table_in_memory s.current_starting_block e.starting_block e.size c →
    LiveChain s.fat_table_in_memory s.current_starting_block e'.starting_block e'.size c' →
    ∀ b ∈ c, b ∉ c'

/-! ## Supporting lemmas -/

/-- The iteration budget of `allocWalk` never decides its result: any two budgets that
cover `filesize - current_size` give the same answer. `createFile` starts the walk with
budget `filesize` at `current_size = kBlockSize`. -/
theorem allocWalk_fuel (fat : List Int) (filesize : Nat) :
    ∀ (n m : Nat) (current_block current_size : Int),
      (filesize : Int) ≤ n + current_size → (filesize : Int) ≤ m + current_size →
      allocWalk fat filesize n current_block current_size =
        allocWalk fat filesize m current_block current_size := by
  intro n
  induction n with
  | zero =>
    intro m cb cs hn hm
    have hcs : ¬ cs < (filesize : Int) := by omega
    cases m with
    | zero => rfl
    | succ m => simp [allocWalk, hcs]
  | succ n ih =>
    intro m cb cs hn hm
    cases m with
    | zero =>
      have hcs : ¬ cs < (filesize : Int) := by omega
      simp [allocWalk, hcs]
    | succ m =>
      simp only [allocWalk]
      split
      · split
        · rfl
        · split
          · split
            · rfl
            · split
              · rfl
              · apply ih
                · simp only [kBlockSize]; push_cast at hn ⊢; omega
                · simp only [kBlockSize]; push_cast at hm ⊢; omega
          · rfl
      · rfl

/-! ## Create, then read -/

/-- C1 (evaluation at the failing input). On the fresh filesystem
`createFile("a.txt", 30, 'X')` returns `Ok`, and `print("a.txt")` on the resulting state
returns `Ok` but writes no byte at all: its loop starts the counter at the absolute
byte address `starting_block * kBlockSize = 300`, which is not below the size 30.
The claim asks for exactly 30 bytes, each equal to `'X'`. -/
theorem print_after_create_writes_nothing :
    (exec init [.create [97, 46, 116, 120, 116] 30 88]).bind
        (fun r => (print r.2 [97, 46, 116, 120, 116]).map (fun p => (r.1, p.1, p.2.2)))
      = some ([Status.Ok], Status.Ok, []) := by
  decide!

/-! ## Allocation -/

/-- C2 (evaluation at the failing input). On the fresh filesystem
`createFile("a.txt", 40, 'X')` returns `Error` and changes nothing: after the first hop
the accumulated capacity is 60, which exceeds 40, and the walk returns `Error`.
The claim asks for `Ok` and a 2-block chain. -/
theorem createFile_40_on_fresh_returns_error :
    createFile init [97, 46, 116, 120, 116] 40 88 = some (Status.Error, init) := by
  decide!

/-- C3 (evaluation at the failing input). On the fresh filesystem
`createFile("a.txt", 30, 'X')` returns `Ok` with starting block 10 (chain `[10]`);
after `remove("a.txt")` returns `Ok`, `createFile("b.txt", 30, 'Y')` returns `Ok` with
starting block 11 (chain `[11]`), not 10: the allocation cursor stays at 11 and the
freed block is not scanned again. -/
theorem create_after_remove_takes_a_new_block :
    (exec init [.create [97, 46, 116, 120, 116] 30 88]).map
        (fun r => (r.1, listDirectory r.2))
      = some ([Status.Ok], [([97, 46, 116, 120, 116, 0, 0, 0, 0, 0, 0, 0, 0, 0, 0, 0], 10, 30)])
    ∧ (exec init [.create [97, 46, 116, 120, 116] 30 88]).map
        (fun r => fileChain r.2.fat_table_in_memory kFatEntries 10) = some (some [10])
    ∧ (exec init [.create [97, 46, 116, 120, 116] 30 88, .remove [97, 46, 116, 120, 116],
          .create [98, 46, 116, 120, 116] 30 89]).map
        (fun r => (r.1, listDirectory r.2))
      = some ([Status.Ok, Status.Ok, Status.Ok],
          [([98, 46, 116, 120, 116, 0, 0, 0, 0, 0, 0, 0, 0, 0, 0, 0], 11, 30)])
    ∧ (exec init [.create [97, 46, 116, 120, 116] 30 88, .remove [97, 46, 116, 120, 116],
          .create [98, 46, 116, 120, 116] 30 89]).map
        (fun r => (fileChain r.2.fat_table_in_memory kFatEntries 11, r.2.current_starting_block))
      = some (some [11], 12) := by
  refine ⟨?_, ?_, ?_, ?_⟩ <;> decide!


/-! ## Name lookup -/

/-- A successful lookup returns an index inside the scanned range whose entry exists
and whose stored C string is the name looked for. -/
theorem findByName_found (dir : List FileEntry) (filename : List Nat) :
    ∀ (n i k : Nat), findByName dir filename n i = some (some k) →
      i ≤ k ∧ k < i + n ∧ ∃ e, dir[k]? = some e ∧ cString e.name = some filename := by
  intro n
  induction n with
  | zero => intro i k h; simp [findByName] at h
  | succ n ih =>
    intro i k h
    simp only [findByName] at h
    cases hd : dir[i]? with
    | none => simp [hd] at h
    | some e =>
      simp only [hd] at h
      cases hc : cString e.name with
      | none => simp [hc] at h
      | some c =>
        simp only [hc] at h
        by_cases hcf : c = filename
        · simp only [hcf, if_true, Option.some.injEq] at h
          subst h
          exact ⟨le_refl _, by omega, e, hd, by rw [hc, hcf]⟩
        · simp only [hcf, if_false] at h
          obtain ⟨h1, h2, h3⟩ := ih (i + 1) k h
          exact ⟨by omega, by omega, h3⟩

/-- A successful lookup found the first entry with that name: every entry before it
holds a different NUL-terminated name. -/
theorem findByName_first (dir : List FileEntry) (filename : List Nat) :
    ∀ (n i k : Nat), findByName dir filename n i = some (some k) →
      ∀ j, i ≤ j → j < k →
        ∃ e c, dir[j]? = some e ∧ cString e.name = some c ∧ c ≠ filename := by
  intro n
  induction n with
  | zero => intro i k h; simp [findByName] at h
  | succ n ih =>
    intro i k h j hij hjk
    simp only [findByName] at h
    cases hd : dir[i]? with
    | none => simp [hd] at h
    | some e =>
      simp only [hd] at h
      cases hc : cString e.name with
      | none => simp [hc] at h
      | some c =>
        simp only [hc] at h
        by_cases hcf : c = filename
        · simp only [hcf, if_true, Option.some.injEq] at h
          omega
        · simp only [hcf, if_false] at h
          by_cases hji : j = i
          · subst hji
            exact ⟨e, c, hd, hc, hcf⟩
          · exact ih (i + 1) k h j (by omega) hjk

/-- When every directory entry is non-free, the first loop of `createFile` runs to
`kMaxNumberFiles`. -/
theorem findEmptyEntry_full (dir : List FileEntry) :
    ∀ (n i : Nat),
      (∀ j, i ≤ j → j < i + n →
        ∃ e, dir[j]? = some e ∧ e.starting_block ≠ kEndOfFile) →
      findEmptyEntry dir n i = some (i + n) := by
  intro n
  induction n with
  | zero => intro i _; rfl
  | succ n ih =>
    intro i h
    obtain ⟨e, hd, hne⟩ := h i (le_refl _) (by omega)
    simp only [findEmptyEntry, hd, hne, if_false]
    rw [ih (i + 1) (fun j h1 h2 => h j (by omega) (by omega))]
    congr 1
    omega


/-! ## Rename -/

/-- The copy of a name into a zeroed 16-character array. -/
theorem copyInto_zeroed (new_filename nm : List Nat)
    (h : copyInto (List.replicate kMaxFilenameSize 0) new_filename = some nm) :
    new_filename.length ≤ kMaxFilenameSize ∧
      nm = new_filename ++ List.replicate (kMaxFilenameSize - new_filename.length) 0 := by
  unfold copyInto at h
  split at h
  · rename_i hle
    simp only [List.length_replicate] at hle
    simp only [Option.some.injEq] at h
    refine ⟨hle, ?_⟩
    rw [← h, List.drop_replicate]
  · simp at h

/-- C4 (counterexample). After `createFile("a.txt", 30, 'X')` on the fresh filesystem,
`rename("a.txt", "a.txt")` returns `Ok` and the resulting state equals the prior state:
no directory entry differs, so it is not the case that exactly one does. -/
theorem rename_to_same_name_changes_nothing :
    (exec init [.create [97, 46, 116, 120, 116] 30 88]).bind
        (fun r => (rename r.2 [97, 46, 116, 120, 116] [97, 46, 116, 120, 116]).map
          (fun q => (q.1, decide (q.2 = r.2))))
      = some (Status.Ok, true) := by
  decide!

/-- The copy of a name that fits into a zeroed 16-character array succeeds and pads the
name with NULs. -/
theorem copyInto_fits (new_filename : List Nat)
    (h : new_filename.length ≤ kMaxFilenameSize) :
    copyInto (List.replicate kMaxFilenameSize 0) new_filename
      = some (new_filename ++
          List.replicate (kMaxFilenameSize - new_filename.length) 0) := by
  unfold copyInto
  rw [if_pos (by simpa using h), List.drop_replicate]

/-- C4 (amended). For every state and names `old`, `new` with `new` of at most
`kMaxFilenameSize` characters: if `rename(old, new)` returns `Ok`, there is one directory
index, inside the directory, holding the first entry whose stored name is `old` (every
entry before it holds a different name), such that the directory afterwards is the prior
directory with that entry's name field replaced by `new` (padded with NULs to the
16-character array) and its starting block, size and timestamp kept; every other
directory entry, the allocation table, the ledger, the cursor and the drive are
unchanged. At most that one entry differs from the prior state. -/
theorem rename_frame (s s' : FATFilesystem) (filename new_filename : List Nat)
    (hnew : new_filename.length ≤ kMaxFilenameSize)
    (h : rename s filename new_filename = some (Status.Ok, s')) :
    ∃ index e, index < kMaxNumberFiles ∧
      s.root_directory_in_memory[index]? = some e ∧ cString e.name = some filename ∧
      (∀ j, j < index → ∃ e' c, s.root_directory_in_memory[j]? = some e' ∧
        cString e'.name = some c ∧ c ≠ filename) ∧
      s'.root_directory_in_memory =
        s.root_directory_in_memory.set index
          { name := new_filename ++ List.replicate (kMaxFilenameSize - new_filename.length) 0,
            starting_block := e.starting_block, size := e.size,
            last_modified := e.last_modified } ∧
      (∀ j, j ≠ index → s'.root_directory_in_memory[j]? = s.root_directory_in_memory[j]?) ∧
      s'.fat_table_in_memory = s.fat_table_in_memory ∧
      s'.block_chunk = s.block_chunk ∧
      s'.current_starting_block = s.current_starting_block ∧
      s'.drive = s.drive := by
  unfold rename at h
  cases hf : findByName s.root_directory_in_memory filename kMaxNumberFiles 0 with
  | none => simp [hf] at h
  | some r =>
    cases r with
    | none => simp [hf] at h
    | some index =>
      simp only [hf] at h
      obtain ⟨_, hlt, e, he, hc⟩ := findByName_found _ _ _ _ _ hf
      have hfirst := findByName_first _ _ _ _ _ hf
      simp only [he, copyInto_fits new_filename hnew, Option.some.injEq, Prod.mk.injEq,
        true_and] at h
      subst h
      refine ⟨index, e, by omega, he, hc, fun j hj => hfirst j (Nat.zero_le _) hj, rfl, ?_,
        rfl, rfl, rfl, rfl⟩
      intro j hj
      simp only [List.getElem?_set]
      rw [if_neg (Ne.symm hj)]

/-- Witness for `rename_frame`: in the reachable state with two files both named `a`
(blocks 10 and 11), `rename("a", "z")` returns `Ok` and renames entry 0, the first of the
two, leaving the second `a` as it was. -/
theorem rename_frame_witness :
    exec init [.create [97] 2 65, .create [97] 2 66]
        = some ([Status.Ok, Status.Ok], twoFilesNamedA)
    ∧ [122].length ≤ kMaxFilenameSize
    ∧ rename twoFilesNamedA [97] [122]
        = some (Status.Ok,
            { twoFilesNamedA with
              root_directory_in_memory :=
                twoFilesNamedA.root_directory_in_memory.set 0
                  { name := 122 :: List.replicate 15 0, starting_block := 10, size := 2,
                    last_modified := 0 } })
    ∧ ∃ index e, index < kMaxNumberFiles ∧
      twoFilesNamedA.root_directory_in_memory[index]? = some e ∧
      cString e.name = some [97] ∧
      (∀ j, j < index → ∃ e' c, twoFilesNamedA.root_directory_in_memory[j]? = some e' ∧
        cString e'.name = some c ∧ c ≠ [97]) ∧
      ({ twoFilesNamedA with
          root_directory_in_memory :=
            twoFilesNamedA.root_directory_in_memory.set 0
              { name := 122 :: List.replicate 15 0, starting_block := 10, size := 2,
                last_modified := 0 } } : FATFilesystem).root_directory_in_memory =
        twoFilesNamedA.root_directory_in_memory.set index
          { name := [122] ++ List.replicate (kMaxFilenameSize - [122].length) 0,
            starting_block := e.starting_block, size := e.size,
            last_modified := e.last_modified } := by
  have h : rename twoFilesNamedA [97] [122]
      = some (Status.Ok,
          { twoFilesNamedA with
            root_directory_in_memory :=
              twoFilesNamedA.root_directory_in_memory.set 0
                { name := 122 :: List.replicate 15 0, starting_block := 10, size := 2,
                  last_modified := 0 } }) := by decide!
  exact ⟨by decide!, by decide, h,
    (rename_frame twoFilesNamedA _ [97] [122] (by decide) h).imp
      (fun _ hi => hi.imp (fun _ he => ⟨he.1, he.2.1, he.2.2.1, he.2.2.2.1, he.2.2.2.2.1⟩))⟩

/-! ## Full directory -/

/-- C5. In every state whose directory has its `kMaxNumberFiles` entries all non-free
(`starting_block != kEndOfFile`), `createFile` returns `Error` for every name, size and
fill byte, and the state (directory, allocation table, ledger, cursor, drive) is the
state before the call. -/
theorem createFile_full (s : FATFilesystem) (filename : List Nat) (filesize value : Nat)
    (hlen : s.root_directory_in_memory.length = kMaxNumberFiles)
    (hfull : ∀ e ∈ s.root_directory_in_memory, e.starting_block ≠ kEndOfFile) :
    createFile s filename filesize value = some (Status.Error, s) := by
  have h := findEmptyEntry_full s.root_directory_in_memory kMaxNumberFiles 0
    (fun j _ hj => by
      have hj' : j < s.root_directory_in_memory.length := by omega
      exact ⟨s.root_directory_in_memory[j], List.getElem?_eq_getElem hj',
        hfull _ (List.getElem_mem hj')⟩)
  unfold createFile
  rw [h]
  simp

/-- Witness for `createFile_full`: five successful creations on the fresh filesystem
lead to `fiveFiles`, whose directory is full, and a sixth `createFile` returns `Error`
leaving `fiveFiles` as it was. -/
theorem createFile_full_witness :
    exec init fiveCreates
        = some ([Status.Ok, Status.Ok, Status.Ok, Status.Ok, Status.Ok], fiveFiles)
    ∧ fiveFiles.root_directory_in_memory.length = kMaxNumberFiles
    ∧ createFile fiveFiles [102] 30 70 = some (Status.Error, fiveFiles) :=
  ⟨by decide!, by decide, createFile_full fiveFiles [102] 30 70 (by decide) (by decide)⟩


/-! ## Requests larger than the free space -/

/-- C6 (evaluation at the failing input). On the fresh filesystem
`createFile("a.txt", 5000, 'X')` has no defined result, and in particular does not return
`Error`: the walk follows the chain 10, ..., 21, 30, ..., 39 and then reads
`fat_table_in_memory[40]`, one past the end of the 40-entry table. With 660 bytes
gathered the walk stands at block 39, whose next-pointer is 40, and the table has no
entry 40. -/
theorem createFile_5000_on_fresh_is_undefined :
    createFile init [97, 46, 116, 120, 116] 5000 88 = none
    ∧ allocWalk init.fat_table_in_memory 660 660 10 kBlockSize = WalkResult.done 39
    ∧ fatAt init.fat_table_in_memory 39 = some 40
    ∧ fatAt init.fat_table_in_memory 40 = none := by
  refine ⟨?_, ?_, ?_, ?_⟩ <;> decide!

/-! ## Names that are not in the directory -/

/-- C8 (evaluation at the failing input). From the state with five files (full
directory), `remove("a")` returns `Ok` and leaves entry 0 equal to `FileEntry()`, whose
starting block is 0, not `kEndOfFile`; the following `createFile("f", 30, 'F')` returns
`Error`, the directory being still full for its first loop. -/
theorem remove_leaves_entry_non_free :
    (exec fiveFiles [.remove [97], .create [102] 30 70]).map Prod.fst
        = some [Status.Ok, Status.Error]
    ∧ (exec fiveFiles [.remove [97]]).map (fun r => r.2.root_directory_in_memory[0]?)
        = some (some FileEntry.default)
    ∧ FileEntry.default.starting_block = 0
    ∧ FileEntry.default.starting_block ≠ kEndOfFile
    ∧ (init.root_directory_in_memory.map (fun e => e.starting_block))
        = [kEndOfFile, kEndOfFile, kEndOfFile, kEndOfFile, kEndOfFile] := by
  refine ⟨?_, ?_, ?_, ?_, ?_⟩ <;> decide!

/-- C9 (evaluation at the failing input). After `createFile("a.txt", 30, 'X')` and
`remove("a.txt")` on the fresh filesystem, both returning `Ok`, no created file remains,
yet `listDirectory` prints one row: the removed entry, with an empty name, starting
block 0 and size 0. -/
theorem listDirectory_shows_removed_entry :
    (exec init [.create [97, 46, 116, 120, 116] 30 88, .remove [97, 46, 116, 120, 116]]).map
        (fun r => (r.1, listDirectory r.2))
      = some ([Status.Ok, Status.Ok], [(List.replicate 16 0, 0, 0)]) := by
  decide!

/-- C10 (evaluation at the failing input). After `createFile("a", 30, 'A')`,
`createFile("b", 30, 'B')`, `remove("a")`, `remove("b")` on the fresh filesystem, all
returning `Ok`, directory entries 0 and 1 are both non-free (starting block 0, which is
not `kEndOfFile`) and both have the chain `[0]`: block 0 belongs to two entries. -/
theorem removed_entries_share_block_zero :
    (exec init [.create [97] 30 65, .create [98] 30 66, .remove [97], .remove [98]]).map
        (fun r => (r.1, r.2.root_directory_in_memory.map (fun e => e.starting_block)))
      = some ([Status.Ok, Status.Ok, Status.Ok, Status.Ok], [0, 0, -1, -1, -1])
    ∧ (exec init [.create [97] 30 65, .create [98] 30 66, .remove [97], .remove [98]]).map
        (fun r => fileChain r.2.fat_table_in_memory kFatEntries 0)
      = some (some [0]) := by
  refine ⟨?_, ?_⟩ <;> decide!

/-! ## What a successful call did -/

/-- The pieces of a `createFile` call that returned `Ok`: the start block the scan
selected, the terminal block the walk stopped at, the table entry saved in the ledger,
the filled drive, and the directory, which is either untouched (no entry with
`name[0] == 0`) or has one entry overwritten. -/
theorem createFile_ok (s s' : FATFilesystem) (filename : List Nat) (filesize value : Nat)
    (h : createFile s filename filesize value = some (Status.Ok, s')) :
    ∃ start_block current_block saved,
      findStartBlock s.fat_table_in_memory
        ((kTableSize : Int) - s.current_starting_block).toNat s.current_starting_block
          = some start_block ∧
      allocWalk s.fat_table_in_memory filesize filesize start_block kBlockSize
          = WalkResult.done current_block ∧
      fatAt s.fat_table_in_memory current_block = some saved ∧
      fillDrive value filesize (start_block * kBlockSize) s.drive = some s'.drive ∧
      (s'.root_directory_in_memory = s.root_directory_in_memory ∨
        ∃ k e nm, s.root_directory_in_memory[k]? = some e ∧
          copyInto e.name filename = some nm ∧
          s'.root_directory_in_memory =
            s.root_directory_in_memory.set k
              { name := nm, starting_block := start_block, size := toInt32 filesize,
                last_modified := 0 }) ∧
      s'.fat_table_in_memory = s.fat_table_in_memory.set current_block.toNat kEndOfFile ∧
      s'.current_starting_block = current_block + 1 ∧
      s'.block_chunk = s.block_chunk ++ [(start_block, saved)] := by
  unfold createFile at h
  split at h
  · simp at h
  · split at h
    · simp at h
    · split at h
      · simp at h
      · rename_i start_block hstart
        split at h
        · simp at h
        · simp at h
        · rename_i current_block hwalk
          split at h
          · simp at h
          · rename_i saved hsaved
            simp only at h
            split at h
            · simp at h
            · rename_i dir hdir
              split at h
              · simp at h
              · rename_i drive hdrive
                simp only [Option.some.injEq, Prod.mk.injEq, true_and] at h
                subst h
                refine ⟨start_block, current_block, saved, hstart, hwalk, hsaved, hdrive, ?_,
                  rfl, rfl, rfl⟩
                simp only
                split at hdir
                · simp at hdir
                · simp only [Option.some.injEq] at hdir
                  exact Or.inl hdir.symm
                · rename_i k _
                  split at hdir
                  · simp at hdir
                  · rename_i e he
                    split at hdir
                    · simp at hdir
                    · rename_i nm hnm
                      simp only [Option.some.injEq] at hdir
                      exact Or.inr ⟨k, e, nm, he, hnm, hdir.symm⟩

/-- The pieces of a `remove` call that returned `Ok`: the index the lookup found, the
entry there, and the tail its chain walk stopped at. Only the table and the directory
are rewritten. -/
theorem remove_ok (s s' : FATFilesystem) (filename : List Nat)
    (h : remove s filename = some (Status.Ok, s')) :
    ∃ index e current_block,
      findByName s.root_directory_in_memory filename kMaxNumberFiles 0 = some (some index) ∧
      s.root_directory_in_memory[index]? = some e ∧
      chainTail s.fat_table_in_memory (kFatEntries + 1) e.starting_block
          = some current_block ∧
      s' = { s with
              fat_table_in_memory :=
                spliceBack e.starting_block current_block s.block_chunk s.fat_table_in_memory
              root_directory_in_memory :=
                s.root_directory_in_memory.set index FileEntry.default } := by
  unfold remove at h
  split at h
  · simp at h
  · simp at h
  · rename_i index hfind
    split at h
    · simp at h
    · rename_i e he
      split at h
      · simp at h
      · rename_i current_block htail
        simp only [Option.some.injEq, Prod.mk.injEq, true_and] at h
        exact ⟨index, e, current_block, hfind, he, htail, h.symm⟩


/-! ## Table and drive accesses -/

/-- A successful table read is inside the table and inside the list. -/
theorem fatAt_some (fat : List Int) (i v : Int) (h : fatAt fat i = some v) :
    0 ≤ i ∧ i < (kFatEntries : Int) ∧ fat[i.toNat]? = some v := by
  unfold fatAt at h
  split at h
  · rename_i hi
    exact ⟨hi.1, hi.2, h⟩
  · simp at h

/-- The tail `remove` stops at holds the end-of-chain sentinel. -/
theorem chainTail_sentinel (fat : List Int) :
    ∀ (n : Nat) (b t : Int), chainTail fat n b = some t → fatAt fat t = some kEndOfFile := by
  intro n
  induction n with
  | zero => intro b t h; simp [chainTail] at h
  | succ n ih =>
    intro b t h
    simp only [chainTail] at h
    split at h
    · simp at h
    · rename_i next hnext
      split at h
      · exact ih _ _ h
      · rename_i hne
        simp only [ne_eq, not_not] at hne
        simp only [Option.some.injEq] at h
        subst h
        rw [hnext, hne]

/-- The ledger loop of `remove` writes at the tail only. -/
theorem spliceBack_frame (start t : Int) :
    ∀ (ledger : List (Int × Int)) (fat : List Int),
      (spliceBack start t ledger fat).length = fat.length ∧
      ∀ j : Nat, j ≠ t.toNat → (spliceBack start t ledger fat)[j]? = fat[j]? := by
  intro ledger
  induction ledger with
  | nil => intro fat; exact ⟨rfl, fun _ _ => rfl⟩
  | cons c cs ih =>
    intro fat
    simp only [spliceBack]
    obtain ⟨h1, h2⟩ := ih (if c.1 = start then fat.set t.toNat c.2 else fat)
    constructor
    · rw [h1]; split <;> simp
    · intro j hj
      rw [h2 j hj]
      split
      · rw [List.getElem?_set_ne (Ne.symm hj)]
      · rfl

/-- The drive after the populate loop: the loop stays inside the drive, keeps its
length, writes `value` at the `count` offsets from `current_byte` on and nothing else. -/
theorem fillDrive_spec (value : Nat) :
    ∀ (n : Nat) (current_byte : Int) (drive drive' : List Nat),
      fillDrive value n current_byte drive = some drive' →
      drive'.length = drive.length ∧
      (0 < n → 0 ≤ current_byte ∧ current_byte + n ≤ (kMaxDriveSize : Int)) ∧
      ∀ k : Nat, drive'[k]? =
        if current_byte ≤ (k : Int) ∧ (k : Int) < current_byte + n
        then (drive[k]?).map (fun _ => value) else drive[k]? := by
  intro n
  induction n with
  | zero =>
    intro cb d d' h
    simp only [fillDrive, Option.some.injEq] at h
    subst h
    refine ⟨rfl, fun h => absurd h (by decide), fun k => ?_⟩
    have : ¬ (cb ≤ (k : Int) ∧ (k : Int) < cb + ((0 : Nat) : Int)) := by omega
    rw [if_neg this]
  | succ n ih =>
    intro cb d d' h
    simp only [fillDrive] at h
    split at h
    · rename_i hcb
      obtain ⟨h1, h2, h3⟩ := ih _ _ _ h
      refine ⟨by rw [h1]; simp, fun _ => ⟨hcb.1, ?_⟩, fun k => ?_⟩
      · rcases Nat.eq_zero_or_pos n with h0 | hpos
        · subst h0; push_cast; omega
        · have := (h2 hpos).2; push_cast at this ⊢; omega
      · rw [h3 k]
        by_cases hk : (k : Int) = cb
        · have hk' : cb.toNat = k := by omega
          have c1 : ¬ (cb + 1 ≤ (k : Int) ∧ (k : Int) < cb + 1 + (n : Int)) := by omega
          have c2 : cb ≤ (k : Int) ∧ (k : Int) < cb + ((n + 1 : Nat) : Int) := by
            push_cast; omega
          rw [if_neg c1, if_pos c2, hk', List.getElem?_set_self']
          rfl
        · have hk' : cb.toNat ≠ k := by omega
          rw [List.getElem?_set_ne hk']
          by_cases c1 : cb + 1 ≤ (k : Int) ∧ (k : Int) < cb + 1 + (n : Int)
          · have c2 : cb ≤ (k : Int) ∧ (k : Int) < cb + ((n + 1 : Nat) : Int) := by
              push_cast; omega
            rw [if_pos c1, if_pos c2]
          · have c2 : ¬ (cb ≤ (k : Int) ∧ (k : Int) < cb + ((n + 1 : Nat) : Int)) := by
              push_cast; omega
            rw [if_neg c1, if_neg c2]
    · simp at h



/-! ## Effects of a successful `createFile` -/

/-- C12. For every state (with its 1200-byte drive) in which `createFile(name, size, v)`
returns `Ok`, with `start` the block its scan selected (the starting block of any
directory entry the call writes): every drive byte at an offset in
`[start * kBlockSize, start * kBlockSize + size)` equals `v` afterwards, and every drive
byte outside that range is unchanged. -/
theorem createFile_fills_drive (s s' : FATFilesystem) (filename : List Nat)
    (filesize value : Nat) (hlen : s.drive.length = kMaxDriveSize)
    (h : createFile s filename filesize value = some (Status.Ok, s')) :
    ∃ start : Int,
      findStartBlock s.fat_table_in_memory
        ((kTableSize : Int) - s.current_starting_block).toNat s.current_starting_block
          = some start ∧
      (s'.root_directory_in_memory = s.root_directory_in_memory ∨
        ∃ k e nm, s.root_directory_in_memory[k]? = some e ∧
          s'.root_directory_in_memory =
            s.root_directory_in_memory.set k
              { name := nm, starting_block := start, size := toInt32 filesize,
                last_modified := 0 }) ∧
      (∀ k : Nat, start * kBlockSize ≤ (k : Int) →
        (k : Int) < start * kBlockSize + (filesize : Int) → s'.drive[k]? = some value) ∧
      (∀ k : Nat, ¬ (start * kBlockSize ≤ (k : Int) ∧
        (k : Int) < start * kBlockSize + (filesize : Int)) → s'.drive[k]? = s.drive[k]?) := by
  obtain ⟨start, t, saved, hstart, _, _, hfill, hdir, _, _, _⟩ :=
    createFile_ok s s' filename filesize value h
  obtain ⟨_, hin, hk⟩ := fillDrive_spec value filesize _ _ _ hfill
  refine ⟨start, hstart, ?_, ?_, ?_⟩
  · rcases hdir with hd | ⟨k, e, nm, he, _, hd⟩
    · exact Or.inl hd
    · exact Or.inr ⟨k, e, nm, he, hd⟩
  · intro k h1 h2
    rw [hk k, if_pos ⟨h1, h2⟩]
    have hpos : 0 < filesize := by omega
    have hb := (hin hpos).2
    have hkl : k < s.drive.length := by
      rw [hlen]
      have : (k : Int) < (kMaxDriveSize : Int) := by omega
      exact_mod_cast this
    rw [List.getElem?_eq_getElem hkl]
    rfl
  · intro k hk'
    rw [hk k, if_neg hk']

/-- Witness for `createFile_fills_drive`: `createFile("a", 2, 'A')` on the fresh
filesystem, which selects block 10 and fills offsets 300 and 301. -/
theorem createFile_fills_drive_witness :
    createFile init [97] 2 65 = some (Status.Ok, oneFile)
    ∧ init.drive.length = kMaxDriveSize
    ∧ oneFile.drive[300]? = some 65 ∧ oneFile.drive[301]? = some 65
    ∧ oneFile.drive[302]? = init.drive[302]? := by
  refine ⟨by decide!, by simp [init], ?_⟩
  obtain ⟨start, hs, _, hin, hout⟩ :=
    createFile_fills_drive init oneFile [97] 2 65 (by simp [init]) (by decide!)
  have h10 : findStartBlock init.fat_table_in_memory
      ((kTableSize : Int) - init.current_starting_block).toNat init.current_starting_block
        = some 10 := by decide
  rw [h10] at hs
  simp only [Option.some.injEq] at hs
  subst hs
  have a1 : (10 : Int) * kBlockSize ≤ ((300 : Nat) : Int) := by norm_num [kBlockSize]
  have a2 : ((300 : Nat) : Int) < 10 * kBlockSize + ((2 : Nat) : Int) := by
    norm_num [kBlockSize]
  have b1 : (10 : Int) * kBlockSize ≤ ((301 : Nat) : Int) := by norm_num [kBlockSize]
  have b2 : ((301 : Nat) : Int) < 10 * kBlockSize + ((2 : Nat) : Int) := by
    norm_num [kBlockSize]
  have c1 : ¬ ((10 : Int) * kBlockSize ≤ ((302 : Nat) : Int) ∧
      ((302 : Nat) : Int) < 10 * kBlockSize + ((2 : Nat) : Int)) := by
    norm_num [kBlockSize]
  have r1 := hin 300 a1 a2
  have r2 := hin 301 b1 b2
  have r3 := hout 302 c1
  exact ⟨r1, r2, r3⟩

/-- C13. For every state in which `createFile` returns `Ok`, with `start` the block its
scan selected and `t` the block its walk stopped at: the ledger afterwards is the old
ledger with the one entry `(start, old table[t])` appended, the table afterwards has
the old length, holds `kEndOfFile` at `t` and is unchanged at every other index, and the
cursor afterwards is `t + 1`. -/
theorem createFile_truncates_chain (s s' : FATFilesystem) (filename : List Nat)
    (filesize value : Nat)
    (h : createFile s filename filesize value = some (Status.Ok, s')) :
    ∃ start t saved : Int,
      findStartBlock s.fat_table_in_memory
        ((kTableSize : Int) - s.current_starting_block).toNat s.current_starting_block
          = some start ∧
      allocWalk s.fat_table_in_memory filesize filesize start kBlockSize
          = WalkResult.done t ∧
      fatAt s.fat_table_in_memory t = some saved ∧
      s'.block_chunk = s.block_chunk ++ [(start, saved)] ∧
      s'.fat_table_in_memory = s.fat_table_in_memory.set t.toNat kEndOfFile ∧
      fatAt s'.fat_table_in_memory t = some kEndOfFile ∧
      (∀ j : Nat, (j : Int) ≠ t → s'.fat_table_in_memory[j]? = s.fat_table_in_memory[j]?) ∧
      s'.current_starting_block = t + 1 := by
  obtain ⟨start, t, saved, hstart, hwalk, hsaved, _, _, hfat, hcur, hledger⟩ :=
    createFile_ok s s' filename filesize value h
  obtain ⟨h0, h40, hget⟩ := fatAt_some _ _ _ hsaved
  refine ⟨start, t, saved, hstart, hwalk, hsaved, hledger, hfat, ?_, ?_, hcur⟩
  · unfold fatAt
    rw [if_pos ⟨h0, h40⟩, hfat, List.getElem?_set_self', hget]
    rfl
  · intro j hj
    have : t.toNat ≠ j := by omega
    rw [hfat, List.getElem?_set_ne this]

/-- Witness for `createFile_truncates_chain`: `createFile("a", 2, 'A')` on the fresh
filesystem selects block 10, stops at block 10, saves its next-pointer 11 and moves the
cursor to 11. -/
theorem createFile_truncates_chain_witness :
    createFile init [97] 2 65 = some (Status.Ok, oneFile)
    ∧ ∃ start t saved : Int,
      findStartBlock init.fat_table_in_memory
        ((kTableSize : Int) - init.current_starting_block).toNat init.current_starting_block
          = some start ∧
      allocWalk init.fat_table_in_memory 2 2 start kBlockSize = WalkResult.done t ∧
      fatAt init.fat_table_in_memory t = some saved ∧
      oneFile.block_chunk = init.block_chunk ++ [(start, saved)] ∧
      oneFile.fat_table_in_memory = init.fat_table_in_memory.set t.toNat kEndOfFile ∧
      fatAt oneFile.fat_table_in_memory t = some kEndOfFile ∧
      (∀ j : Nat, (j : Int) ≠ t →
        oneFile.fat_table_in_memory[j]? = init.fat_table_in_memory[j]?) ∧
      oneFile.current_starting_block = t + 1 :=
  ⟨by decide!, createFile_truncates_chain init oneFile [97] 2 65 (by decide!)⟩

/-! ## Effects of a successful `remove` -/

/-- C15 (counterexample). After `createFile("a.txt", 30, 'X')` and `remove("a.txt")` on
the fresh filesystem, both returning `Ok`, the ledger still holds the entry `(10, 11)`
of the removed file, whose starting block was 10: its length is 1 before and after the
removal. -/
theorem remove_leaves_ledger_entry :
    (exec init [.create [97, 46, 116, 120, 116] 30 88]).map
        (fun r => (r.1, listDirectory r.2))
      = some ([Status.Ok], [([97, 46, 116, 120, 116, 0, 0, 0, 0, 0, 0, 0, 0, 0, 0, 0], 10, 30)])
    ∧ (exec init [.create [97, 46, 116, 120, 116] 30 88]).map (fun r => r.2.block_chunk)
      = some [(10, 11)]
    ∧ (exec init [.create [97, 46, 116, 120, 116] 30 88,
          .remove [97, 46, 116, 120, 116]]).map (fun r => (r.1, r.2.block_chunk))
      = some ([Status.Ok, Status.Ok], [(10, 11)]) := by
  refine ⟨?_, ?_, ?_⟩ <;> decide!

/-- C15 (amended). For every state and name: if `remove(name)` returns `Ok`, the ledger
afterwards is the ledger before the call; no entry is consumed and its length does not
change. -/
theorem remove_keeps_ledger (s s' : FATFilesystem) (filename : List Nat)
    (h : remove s filename = some (Status.Ok, s')) :
    s'.block_chunk = s.block_chunk := by
  obtain ⟨_, _, _, _, _, _, hs'⟩ := remove_ok s s' filename h
  subst hs'
  rfl

/-- Witness for `remove_keeps_ledger`: `remove("b")` in the state with five files. -/
theorem remove_keeps_ledger_witness :
    remove fiveFiles [98]
        = some (Status.Ok,
            { fiveFiles with
              fat_table_in_memory := fiveFiles.fat_table_in_memory.set 11 12
              root_directory_in_memory :=
                fiveFiles.root_directory_in_memory.set 1 FileEntry.default })
    ∧ ({ fiveFiles with
          fat_table_in_memory := fiveFiles.fat_table_in_memory.set 11 12
          root_directory_in_memory :=
            fiveFiles.root_directory_in_memory.set 1 FileEntry.default }
        : FATFilesystem).block_chunk = fiveFiles.block_chunk := by
  have h : remove fiveFiles [98]
      = some (Status.Ok,
          { fiveFiles with
            fat_table_in_memory := fiveFiles.fat_table_in_memory.set 11 12
            root_directory_in_memory :=
              fiveFiles.root_directory_in_memory.set 1 FileEntry.default }) := by decide!
  exact ⟨h, remove_keeps_ledger fiveFiles _ [98] h⟩

/-- C20. For every state (reachable or not) and every name for which `remove(name)`
returns `Ok`: the call located the first directory entry whose stored name is `name`
and walked its chain to the tail `t`, the first entry holding `kEndOfFile`; the drive
and the cursor are unchanged, every directory entry other than the located one is
unchanged, and the allocation table keeps its length and differs from the prior table
at no index other than `t`. -/
theorem remove_frame (s s' : FATFilesystem) (filename : List Nat)
    (h : remove s filename = some (Status.Ok, s')) :
    ∃ (index : Nat) (e : FileEntry) (t : Int),
      index < kMaxNumberFiles ∧
      s.root_directory_in_memory[index]? = some e ∧ cString e.name = some filename ∧
      (∀ j, j < index → ∃ e' c, s.root_directory_in_memory[j]? = some e' ∧
        cString e'.name = some c ∧ c ≠ filename) ∧
      chainTail s.fat_table_in_memory (kFatEntries + 1) e.starting_block = some t ∧
      fatAt s.fat_table_in_memory t = some kEndOfFile ∧
      s'.drive = s.drive ∧
      s'.current_starting_block = s.current_starting_block ∧
      (∀ j, j ≠ index → s'.root_directory_in_memory[j]? = s.root_directory_in_memory[j]?) ∧
      s'.fat_table_in_memory.length = s.fat_table_in_memory.length ∧
      (∀ j : Nat, (j : Int) ≠ t →
        s'.fat_table_in_memory[j]? = s.fat_table_in_memory[j]?) := by
  obtain ⟨index, e, t, hfind, he, htail, hs'⟩ := remove_ok s s' filename h
  obtain ⟨_, hlt, e', he', hc⟩ := findByName_found _ _ _ _ _ hfind
  have hee : e' = e := by rw [he] at he'; exact (Option.some.inj he').symm
  subst hee
  have hsent := chainTail_sentinel _ _ _ _ htail
  obtain ⟨h0, _, _⟩ := fatAt_some _ _ _ hsent
  obtain ⟨hl, hfr⟩ := spliceBack_frame e'.starting_block t s.block_chunk s.fat_table_in_memory
  subst hs'
  refine ⟨index, e', t, by omega, he, hc, ?_, htail, hsent, rfl, rfl, ?_, hl, ?_⟩
  · intro j hj
    exact findByName_first _ _ _ _ _ hfind j (Nat.zero_le _) hj
  · intro j hj
    simp only
    rw [List.getElem?_set_ne (Ne.symm hj)]
  · intro j hj
    exact hfr j (by omega)

/-- Witness for `remove_frame`: `remove("a")` in the state with five files relinks
block 10 and resets entry 0. -/
theorem remove_frame_witness :
    remove fiveFiles [97]
        = some (Status.Ok,
            { fiveFiles with
              fat_table_in_memory := fiveFiles.fat_table_in_memory.set 10 11
              root_directory_in_memory :=
                fiveFiles.root_directory_in_memory.set 0 FileEntry.default })
    ∧ ∃ (index : Nat) (e : FileEntry) (t : Int),
      index < kMaxNumberFiles ∧
      fiveFiles.root_directory_in_memory[index]? = some e ∧ cString e.name = some [97] ∧
      chainTail fiveFiles.fat_table_in_memory (kFatEntries + 1) e.starting_block = some t ∧
      fatAt fiveFiles.fat_table_in_memory t = some kEndOfFile := by
  have h : remove fiveFiles [97]
      = some (Status.Ok,
          { fiveFiles with
            fat_table_in_memory := fiveFiles.fat_table_in_memory.set 10 11
            root_directory_in_memory :=
              fiveFiles.root_directory_in_memory.set 0 FileEntry.default }) := by decide!
  exact ⟨h, (remove_frame fiveFiles _ [97] h).imp fun _ hi =>
    hi.imp fun _ he => he.imp fun _ ht =>
      ⟨ht.1, ht.2.1, ht.2.2.1, ht.2.2.2.2.1, ht.2.2.2.2.2.1⟩⟩

/-! ## Create, then remove -/

/-- C14 (evaluation at the failing input). On the fresh filesystem five calls
`rename("", "x")` return `Ok` and give each of the five free entries the name `"x"`.
In that state `createFile("a", 30, 'A')` returns `Ok` (its first loop finds the free
entry 0) but writes no directory entry (its second loop finds no entry with
`name[0] == 0`), so the following `remove("a")` returns `Error` and the table keeps the
truncation: entry 10 holds `kEndOfFile`, where it held 11 before the `createFile`. -/
theorem create_without_entry_is_not_removable :
    (exec init [.rename [] [120], .rename [] [120], .rename [] [120], .rename [] [120],
        .rename [] [120]]).map (fun r => (r.1, r.2.fat_table_in_memory))
      = some ([Status.Ok, Status.Ok, Status.Ok, Status.Ok, Status.Ok], initialFat)
    ∧ (exec init [.rename [] [120], .rename [] [120], .rename [] [120], .rename [] [120],
        .rename [] [120], .create [97] 30 65, .remove [97]]).map Prod.fst
      = some [Status.Ok, Status.Ok, Status.Ok, Status.Ok, Status.Ok, Status.Ok, Status.Error]
    ∧ (exec init [.rename [] [120], .rename [] [120], .rename [] [120], .rename [] [120],
        .rename [] [120], .create [97] 30 65]).map (fun r => listDirectory r.2)
      = some []
    ∧ (exec init [.rename [] [120], .rename [] [120], .rename [] [120], .rename [] [120],
        .rename [] [120], .create [97] 30 65, .remove [97]]).map
          (fun r => r.2.fat_table_in_memory)
      = some (initialFat.set 10 kEndOfFile)
    ∧ initialFat.set 10 kEndOfFile ≠ initialFat := by
  refine ⟨?_, ?_, ?_, ?_, ?_⟩ <;> decide!

/-! ## The table the constructor writes -/

/-- C16 (evaluation at the failing input). In the table the constructor writes, entries
0 to 9 hold `kEndOfFile`, but entry 21 holds 30 and entry 39 holds 40, and no entry from
10 on holds `kEndOfFile`: following next-pointers from block 10 visits 10 to 21 and 30 to
39, never visits 22 to 29, and from block 39 leaves the table at index 40 without
reaching an end-of-chain entry. -/
theorem initial_chain_skips_blocks_and_leaves_table :
    initialFat.take 10 = List.replicate 10 kEndOfFile
    ∧ (initialFat.drop 10).all (fun v => v != kEndOfFile) = true
    ∧ fatAt initialFat 21 = some 30
    ∧ fatAt initialFat 39 = some 40
    ∧ fatAt initialFat 40 = none
    ∧ fileChain initialFat kFatEntries 10 = none
    ∧ fileChain (initialFat.set 39 kEndOfFile) kFatEntries 10
        = some [10, 11, 12, 13, 14, 15, 16, 17, 18, 19, 20, 21,
                30, 31, 32, 33, 34, 35, 36, 37, 38, 39] := by
  refine ⟨?_, ?_, ?_, ?_, ?_, ?_, ?_⟩ <;> decide!

/-! ## Accesses outside the table -/

/-- C17 (evaluation at the failing input). On the fresh filesystem the walk of
`createFile("a.txt", 690, 'X')` stops at index 40, and the ledger statement then reads
`fat_table_in_memory[40]`, outside the table. After `createFile("a.txt", 390, 'X')`
(returning `Ok`, cursor 31) the scan of the next `createFile` finds no block and leaves
`start_block` at -1, and the call reads `fat_table_in_memory[-1]`. -/
theorem createFile_indexes_outside_table :
    allocWalk init.fat_table_in_memory 690 690 10 kBlockSize = WalkResult.done 40
    ∧ fatAt init.fat_table_in_memory 40 = none
    ∧ createFile init [97, 46, 116, 120, 116] 690 88 = none
    ∧ (exec init [.create [97, 46, 116, 120, 116] 390 88]).map
        (fun r => (r.1, r.2.current_starting_block)) = some ([Status.Ok], 31)
    ∧ (exec init [.create [97, 46, 116, 120, 116] 390 88]).map
        (fun r => findStartBlock r.2.fat_table_in_memory
          ((kTableSize : Int) - r.2.current_starting_block).toNat r.2.current_starting_block)
      = some (some (-1))
    ∧ fatAt initialFat (-1) = none
    ∧ (exec init [.create [97, 46, 116, 120, 116] 390 88]).bind
        (fun r => createFile r.2 [98, 46, 116, 120, 116] 30 89) = none := by
  refine ⟨?_, ?_, ?_, ?_, ?_, ?_, ?_⟩ <;> decide!

/-- C18 (evaluation at the failing input). The fresh filesystem is reachable, and on it
`createFile("a.txt", 1000, 'X')` has no defined result: 22 hops take its walk from block
10 to index 40, outside the table, where the loop test reads the table again instead of
stopping at an end-of-chain entry. Likewise `remove("")` starts its walk at block -1. -/
theorem walks_do_not_stop_inside_table :
    Reachable init
    ∧ createFile init [97, 46, 116, 120, 116] 1000 88 = none
    ∧ allocWalk init.fat_table_in_memory 690 22 10 kBlockSize = WalkResult.done 40
    ∧ allocWalk init.fat_table_in_memory 1000 1000 40 690 = WalkResult.undefined
    ∧ chainTail init.fat_table_in_memory (kFatEntries + 1) (-1) = none
    ∧ remove init [] = none := by
  refine ⟨⟨[], [], rfl⟩, ?_, ?_, ?_, ?_, ?_⟩ <;> decide!

/-! ## Names longer than the name array -/

/-- C19 (evaluation at the failing input). With the 17-character name
`"abcdefghijklmnopq"`, `createFile` on the fresh filesystem and `rename("a", name)` after
`createFile("a", 30, 'X')` have no defined result: `std::copy` writes all 17 characters
into the 16-character array. Neither call returns `Error`, and neither stores the first
16 characters. -/
theorem long_name_overruns_name_array :
    copyInto (List.replicate kMaxFilenameSize 0)
        [97, 98, 99, 100, 101, 102, 103, 104, 105, 106, 107, 108, 109, 110, 111, 112, 113]
      = none
    ∧ createFile init
        [97, 98, 99, 100, 101, 102, 103, 104, 105, 106, 107, 108, 109, 110, 111, 112, 113]
        30 88 = none
    ∧ (exec init [.create [97] 30 88]).map Prod.fst = some [Status.Ok]
    ∧ exec init [.create [97] 30 88,
        .rename [97]
          [97, 98, 99, 100, 101, 102, 103, 104, 105, 106, 107, 108, 109, 110, 111, 112, 113]]
      = none := by
  refine ⟨?_, ?_, ?_, ?_⟩ <;> decide!

/-! ## Chains in reachable states -/

/-- In the constructor's table every entry is either the sentinel, at an index below
10, or a forward pointer from an index of at least 10 to at most 40. -/
theorem initialFat_entry :
    ∀ i : Nat, i < kFatEntries → ∀ v : Int, initialFat[i]? = some v →
      (v = kEndOfFile ∧ i < 10) ∨ (v ≠ kEndOfFile ∧ 10 ≤ i ∧ (i : Int) < v ∧ v ≤ 40) := by
  have h : ∀ i : Nat, i < kFatEntries →
      (initialFat[i]?).all (fun v =>
        decide ((v = kEndOfFile ∧ i < 10) ∨
          (v ≠ kEndOfFile ∧ 10 ≤ i ∧ (i : Int) < v ∧ v ≤ 40))) = true := by
    decide
  intro i hi v hv
  have := h i hi
  rw [hv] at this
  simpa using this

/-- A table read does not see a write at another index. -/
theorem fatAt_congr (fat fat' : List Int) (t x : Int)
    (hframe : ∀ i : Nat, (i : Int) ≠ t → fat'[i]? = fat[i]?) (hx : x ≠ t) :
    fatAt fat' x = fatAt fat x := by
  unfold fatAt
  split
  · rename_i h
    exact hframe x.toNat (by omega)
  · rfl

/-- A chain does not see a write at a block outside it. -/
theorem fileChain_congr (fat fat' : List Int) (t : Int)
    (hframe : ∀ i : Nat, (i : Int) ≠ t → fat'[i]? = fat[i]?) :
    ∀ (n : Nat) (b : Int) (c : List Int), fileChain fat n b = some c → t ∉ c →
      fileChain fat' n b = some c := by
  intro n
  induction n with
  | zero => intro b c h; simp [fileChain] at h
  | succ n ih =>
    intro b c h ht
    simp only [fileChain] at h ⊢
    cases hb : fatAt fat b with
    | none => simp [hb] at h
    | some next =>
      simp only [hb] at h
      by_cases hne : next ≠ kEndOfFile
      · rw [if_pos hne] at h
        simp only [Option.map_eq_some'] at h
        obtain ⟨rest, hrest, hc⟩ := h
        subst hc
        have hbt : b ≠ t := fun hbt => ht (by simp [hbt])
        rw [fatAt_congr fat fat' t b hframe hbt, hb]
        simp only
        rw [if_pos hne, ih next rest hrest (fun hin => ht (List.mem_cons_of_mem _ hin))]
        rfl
      · rw [if_neg hne] at h
        simp only [Option.some.injEq] at h
        subst h
        have hbt : b ≠ t := fun hbt => ht (by simp [hbt])
        rw [fatAt_congr fat fat' t b hframe hbt, hb]
        simp only
        rw [if_neg hne]

/-- A chain starts with the block it is followed from. -/
theorem fileChain_head (fat : List Int) (n : Nat) (b : Int) (c : List Int)
    (h : fileChain fat n b = some c) : b ∈ c := by
  cases n with
  | zero => simp [fileChain] at h
  | succ n =>
    simp only [fileChain] at h
    cases hb : fatAt fat b with
    | none => simp [hb] at h
    | some next =>
      simp only [hb] at h
      split at h
      · simp only [Option.map_eq_some'] at h
        obtain ⟨rest, _, hc⟩ := h
        subst hc
        simp
      · simp only [Option.some.injEq] at h
        subst h
        simp

/-- The tail the walk of `remove` stops at is a block of the chain. -/
theorem chainTail_mem_fileChain (fat : List Int) :
    ∀ (n : Nat) (b : Int) (c : List Int), fileChain fat n b = some c →
      ∀ (m : Nat) (t : Int), chainTail fat m b = some t → t ∈ c := by
  intro n
  induction n with
  | zero => intro b c h; simp [fileChain] at h
  | succ n ih =>
    intro b c h m t ht
    cases m with
    | zero => simp [chainTail] at ht
    | succ m =>
      simp only [fileChain] at h
      simp only [chainTail] at ht
      cases hb : fatAt fat b with
      | none => simp [hb] at h
      | some next =>
        simp only [hb] at h ht
        by_cases hne : next ≠ kEndOfFile
        · rw [if_pos hne] at h ht
          simp only [Option.map_eq_some'] at h
          obtain ⟨rest, hrest, hc⟩ := h
          subst hc
          exact List.mem_cons_of_mem _ (ih next rest hrest m t ht)
        · rw [if_neg hne] at h ht
          simp only [Option.some.injEq] at h ht
          subst h ht
          simp

/-- The ledger loop of `remove` changes nothing when no chunk starts at the block. -/
theorem spliceBack_no_match (start t : Int) :
    ∀ (ledger : List (Int × Int)) (fat : List Int), (∀ p ∈ ledger, p.1 ≠ start) →
      spliceBack start t ledger fat = fat := by
  intro ledger
  induction ledger with
  | nil => intro fat _; rfl
  | cons p ps ih =>
    intro fat h
    simp only [spliceBack]
    rw [if_neg (h p (by simp))]
    exact ih fat (fun q hq => h q (List.mem_cons_of_mem _ hq))

/-- The size stored in the entry is never larger than the requested size. -/
theorem toInt32_le (n : Nat) : toInt32 n ≤ (n : Int) := by
  unfold toInt32
  split <;> omega

/-- The scan of `createFile` either runs out (leaving `kEndOfFile`) or selects a block at
or after the cursor whose table entry is not the sentinel. -/
theorem findStartBlock_spec (fat : List Int) :
    ∀ (n : Nat) (j b : Int), findStartBlock fat n j = some b →
      b = kEndOfFile ∨ (j ≤ b ∧ ∃ v, fatAt fat b = some v ∧ v ≠ kEndOfFile) := by
  intro n
  induction n with
  | zero =>
    intro j b h
    simp only [findStartBlock, Option.some.injEq] at h
    exact Or.inl h.symm
  | succ n ih =>
    intro j b h
    simp only [findStartBlock] at h
    cases hj : fatAt fat j with
    | none => simp [hj] at h
    | some v =>
      simp only [hj] at h
      by_cases hne : v ≠ kEndOfFile
      · rw [if_pos hne] at h
        simp only [Option.some.injEq] at h
        subst h
        exact Or.inr ⟨le_refl _, v, hj, hne⟩
      · rw [if_neg hne] at h
        rcases ih (j + 1) b h with h1 | ⟨h1, h2⟩
        · exact Or.inl h1
        · exact Or.inr ⟨by omega, h2⟩

/-- A walk of `createFile` that starts outside the table can only stop where it starts. -/
theorem allocWalk_outside (fat : List Int) (filesize n : Nat) (b cs cb : Int)
    (hb : fatAt fat b = none)
    (h : allocWalk fat filesize n b cs = WalkResult.done cb) : cb = b := by
  cases n with
  | zero =>
    simp only [allocWalk] at h
    split at h
    · simp at h
    · simp only [WalkResult.done.injEq] at h
      exact h.symm
  | succ n =>
    simp only [allocWalk, hb] at h
    split at h
    · simp at h
    · simp only [WalkResult.done.injEq] at h
      exact h.symm

/-- The walk of `createFile` over blocks that still hold the constructor's pointers:
when it stops at `cb` inside the table, truncating the table at `cb` leaves a chain from
the start block to `cb` whose blocks lie between the two and whose capacity, added to
the capacity counted before the walk, covers the file size. -/
theorem allocWalk_chain (fat : List Int) (filesize : Nat) (j0 : Int)
    (hlen : fat.length = kFatEntries)
    (hpr : ∀ i : Nat, i < kFatEntries → j0 ≤ (i : Int) → fat[i]? = initialFat[i]?) :
    ∀ (n : Nat) (b cs cb : Int), j0 ≤ b → 10 ≤ b →
      allocWalk fat filesize n b cs = WalkResult.done cb → cb < (kFatEntries : Int) →
      b ≤ cb ∧ ∀ m : Nat, (kFatEntries : Int) ≤ (m : Int) + b →
        ∃ c, fileChain (fat.set cb.toNat kEndOfFile) m b = some c ∧
          (∀ x ∈ c, b ≤ x ∧ x ≤ cb) ∧
          (filesize : Int) ≤ cs + kBlockSize * (c.length : Int) - kBlockSize := by
  have stop : ∀ (b cs : Int), 10 ≤ b → b < (kFatEntries : Int) → ¬ cs < (filesize : Int) →
      ∀ m : Nat, (kFatEntries : Int) ≤ (m : Int) + b →
        ∃ c, fileChain (fat.set b.toNat kEndOfFile) m b = some c ∧
          (∀ x ∈ c, b ≤ x ∧ x ≤ b) ∧
          (filesize : Int) ≤ cs + kBlockSize * (c.length : Int) - kBlockSize := by
    intro b cs hb10 hb40 hcs m hm
    cases m with
    | zero => exfalso; push_cast at hm; omega
    | succ m =>
      refine ⟨[b], ?_, ?_, ?_⟩
      · have hbl : b.toNat < fat.length := by rw [hlen]; omega
        have hat : fatAt (fat.set b.toNat kEndOfFile) b = some kEndOfFile := by
          unfold fatAt
          rw [if_pos ⟨by omega, hb40⟩, List.getElem?_set_self hbl]
        simp only [fileChain, hat]
        simp
      · intro x hx
        simp only [List.mem_singleton] at hx
        subst hx
        exact ⟨le_refl _, le_refl _⟩
      · simp only [List.length_singleton, kBlockSize]
        push_cast
        omega
  intro n
  induction n with
  | zero =>
    intro b cs cb _ hb10 h hcb
    simp only [allocWalk] at h
    split at h
    · simp at h
    · rename_i hcs
      simp only [WalkResult.done.injEq] at h
      subst h
      exact ⟨le_refl _, stop b cs hb10 hcb hcs⟩
  | succ n ih =>
    intro b cs cb hj0 hb10 h hcb
    simp only [allocWalk] at h
    split at h
    · cases hb : fatAt fat b with
      | none => simp [hb] at h
      | some next =>
        simp only [hb] at h
        obtain ⟨hb0, hb40, hget⟩ := fatAt_some _ _ _ hb
        have hbn : b.toNat < kFatEntries := by omega
        have hinit : initialFat[b.toNat]? = some next := by
          rw [← hpr b.toNat hbn (by omega)]; exact hget
        rcases initialFat_entry b.toNat hbn next hinit with ⟨_, hlt⟩ | ⟨hne, _, hgt, hle⟩
        · omega
        · rw [if_pos hne] at h
          split at h
          · simp at h
          · split at h
            · simp at h
            · have hgt' : b < next := by omega
              obtain ⟨hle', hch⟩ := ih next (cs + kBlockSize) cb (by omega) (by omega) h hcb
              refine ⟨by omega, fun m hm => ?_⟩
              cases m with
              | zero => exfalso; push_cast at hm; omega
              | succ m =>
                obtain ⟨c, hc, hin, hsz⟩ := hch m (by push_cast at hm ⊢; omega)
                refine ⟨b :: c, ?_, ?_, ?_⟩
                · have hframe : ∀ i : Nat, (i : Int) ≠ cb →
                      (fat.set cb.toNat kEndOfFile)[i]? = fat[i]? := by
                    intro i hi
                    rw [List.getElem?_set_ne (by omega)]
                  simp only [fileChain]
                  rw [fatAt_congr fat _ cb b hframe (by omega), hb]
                  simp only
                  rw [if_pos hne, hc]
                  rfl
                · intro x hx
                  rcases List.mem_cons.mp hx with hx | hx
                  · subst hx; exact ⟨le_refl _, by omega⟩
                  · have := hin x hx
                    exact ⟨by omega, this.2⟩
                · simp only [List.length_cons]
                  simp only [kBlockSize] at hsz ⊢
                  push_cast
                  omega
    · rename_i hcs
      simp only [WalkResult.done.injEq] at h
      subst h
      exact ⟨le_refl _, stop b cs hb10 hcb hcs⟩

/-- A `createFile` call that returned `Error` changed nothing. -/
theorem createFile_error (s s' : FATFilesystem) (filename : List Nat) (filesize value : Nat)
    (h : createFile s filename filesize value = some (Status.Error, s')) : s' = s := by
  unfold createFile at h
  split at h
  · simp at h
  · split at h
    · simp only [Option.some.injEq, Prod.mk.injEq, true_and] at h
      exact h.symm
    · split at h
      · simp at h
      · split at h
        · simp at h
        · simp only [Option.some.injEq, Prod.mk.injEq, true_and] at h
          exact h.symm
        · split at h
          · simp at h
          · simp only at h
            split at h
            · simp at h
            · split at h
              · simp at h
              · simp at h

/-- A `remove` call that returned `Error` changed nothing. -/
theorem remove_error (s s' : FATFilesystem) (filename : List Nat)
    (h : remove s filename = some (Status.Error, s')) : s' = s := by
  unfold remove at h
  split at h
  · simp at h
  · simp only [Option.some.injEq, Prod.mk.injEq, true_and] at h
    exact h.symm
  · split at h
    · simp at h
    · split at h
      · simp at h
      · simp at h

/-- A `rename` call either changed nothing or rewrote the name of one directory entry. -/
theorem rename_result (s s' : FATFilesystem) (filename new_filename : List Nat) (st : Status)
    (h : rename s filename new_filename = some (st, s')) :
    s' = s ∨ ∃ index e nm, s.root_directory_in_memory[index]? = some e ∧
      s' = { s with
              root_directory_in_memory :=
                s.root_directory_in_memory.set index { e with name := nm } } := by
  unfold rename at h
  split at h
  · simp at h
  · simp only [Option.some.injEq, Prod.mk.injEq] at h
    exact Or.inl h.2.symm
  · rename_i index _
    split at h
    · simp at h
    · rename_i e he
      split at h
      · simp at h
      · rename_i nm _
        simp only [Option.some.injEq, Prod.mk.injEq] at h
        exact Or.inr ⟨index, e, nm, he, h.2.symm⟩

/-- An entry read from a list after one position was overwritten. -/
theorem getElem?_set_cases {α : Type} (l : List α) (k i : Nat) (x y : α)
    (h : (l.set k x)[i]? = some y) : (i = k ∧ y = x) ∨ (i ≠ k ∧ l[i]? = some y) := by
  rw [List.getElem?_set] at h
  by_cases hk : k = i
  · rw [if_pos hk] at h
    split at h
    · simp only [Option.some.injEq] at h
      exact Or.inl ⟨hk.symm, h.symm⟩
    · simp at h
  · rw [if_neg hk] at h
    exact Or.inr ⟨fun hik => hk hik.symm, h⟩

/-- A directory entry keeps its kind, and a file its chain, when the table is written
at a block outside the file's chain and the cursor does not move back. -/
theorem entry_transfer (fat fat' : List Int) (cursor cursor' t : Int) (e : FileEntry)
    (hkind : EntryKind fat cursor e)
    (hframe : ∀ i : Nat, (i : Int) ≠ t → fat'[i]? = fat[i]?)
    (ht : ∀ c, LiveChain fat cursor e.starting_block e.size c → t ∉ c)
    (hcur : cursor ≤ cursor') :
    EntryKind fat' cursor' e ∧
    ∀ c, LiveChain fat' cursor' e.starting_block e.size c →
      LiveChain fat cursor e.starting_block e.size c := by
  rcases hkind with hfree | ⟨hdead, hsz⟩ | ⟨c0, hc0⟩
  · refine ⟨Or.inl hfree, fun c hc => ?_⟩
    have := (hc.2.2 _ (fileChain_head _ _ _ _ hc.1)).1
    rw [hfree] at this
    exact absurd this (by decide)
  · refine ⟨Or.inr (Or.inl ⟨hdead, hsz⟩), fun c hc => ?_⟩
    have := (hc.2.2 _ (fileChain_head _ _ _ _ hc.1)).1
    rw [hdead] at this
    exact absurd this (by decide)
  · have hc0' : fileChain fat' kFatEntries e.starting_block = some c0 :=
      fileChain_congr fat fat' t hframe _ _ _ hc0.1 (ht c0 hc0)
    refine ⟨Or.inr (Or.inr ⟨c0, hc0', hc0.2.1, fun b hb => ?_⟩), fun c hc => ?_⟩
    · have := hc0.2.2 b hb
      exact ⟨this.1, by omega⟩
    · have hcc : c = c0 := by
        have := hc.1
        rw [hc0'] at this
        exact (Option.some.inj this).symm
      rw [hcc]
      exact hc0

/-- The invariant survives a step that writes the table at one block `t` outside the
chains of the files that stay, moves the cursor forward or not at all, and overwrites
the directory entry `k` with an entry `x` whose chain, if any, is disjoint from theirs. -/
theorem Inv_update (s s' : FATFilesystem) (t : Int) (k : Nat) (x : FileEntry)
    (hinv : Inv s)
    (hlen : s'.fat_table_in_memory.length = s.fat_table_in_memory.length)
    (hframe : ∀ i : Nat, (i : Int) ≠ t →
      s'.fat_table_in_memory[i]? = s.fat_table_in_memory[i]?)
    (hcur : s.current_starting_block ≤ s'.current_starting_block)
    (hblock0 : s'.fat_table_in_memory[0]? = some kEndOfFile)
    (hpristine : ∀ i : Nat, i < kFatEntries → s'.current_starting_block ≤ (i : Int) →
      s'.fat_table_in_memory[i]? = initialFat[i]?)
    (hledger : ∀ p ∈ s'.block_chunk, p.1 ≠ 0)
    (hdir : s'.root_directory_in_memory = s.root_directory_in_memory.set k x)
    (hx : EntryKind s'.fat_table_in_memory s'.current_starting_block x)
    (hxdisj : ∀ c, LiveChain s'.fat_table_in_memory s'.current_starting_block
        x.starting_block x.size c →
      ∀ (i : Nat) (e : FileEntry) (c' : List Int), i ≠ k →
        s.root_directory_in_memory[i]? = some e →
        LiveChain s.fat_table_in_memory s.current_starting_block e.starting_block e.size c' →
        (∀ b ∈ c, b ∉ c') ∧ (∀ b ∈ c', b ∉ c))
    (hold : ∀ (i : Nat) (e : FileEntry) (c : List Int), i ≠ k →
      s.root_directory_in_memory[i]? = some e →
      LiveChain s.fat_table_in_memory s.current_starting_block e.starting_block e.size c →
      t ∉ c) :
    Inv s' := by
  have tr : ∀ (i : Nat) (e : FileEntry), i ≠ k → s.root_directory_in_memory[i]? = some e →
      EntryKind s'.fat_table_in_memory s'.current_starting_block e ∧
      ∀ c, LiveChain s'.fat_table_in_memory s'.current_starting_block
          e.starting_block e.size c →
        LiveChain s.fat_table_in_memory s.current_starting_block e.starting_block e.size c :=
    fun i e hik he =>
      entry_transfer _ _ _ _ t e (hinv.entries i e he) hframe
        (fun c hc => hold i e c hik he hc) hcur
  refine ⟨by rw [hlen]; exact hinv.fat_len, le_trans hinv.cursor_nonneg hcur, hblock0,
    hpristine, hledger, ?_, ?_⟩
  · intro i e he
    rw [hdir] at he
    rcases getElem?_set_cases _ _ _ _ _ he with ⟨_, hex⟩ | ⟨hik, he'⟩
    · rw [hex]; exact hx
    · exact (tr i e hik he').1
  · intro i j e e' c c' hij he he' hc hc'
    rw [hdir] at he he'
    rcases getElem?_set_cases _ _ _ _ _ he with ⟨hik, hex⟩ | ⟨hik, he1⟩
    · rcases getElem?_set_cases _ _ _ _ _ he' with ⟨hjk, _⟩ | ⟨hjk, he2⟩
      · omega
      · subst hex
        exact (hxdisj c hc j e' c' hjk he2 ((tr j e' hjk he2).2 c' hc')).1
    · rcases getElem?_set_cases _ _ _ _ _ he' with ⟨hjk, hex'⟩ | ⟨hjk, he2⟩
      · subst hex'
        exact (hxdisj c' hc' i e c hik he1 ((tr i e hik he1).2 c hc)).2
      · exact hinv.disjoint i j e e' c c' hij he1 he2 ((tr i e hik he1).2 c hc)
          ((tr j e' hjk he2).2 c' hc')

/-- No chain of a file contains the block `-1`. -/
theorem LiveChain_not_mem_neg (fat : List Int) (cursor start size : Int) (c : List Int)
    (hc : LiveChain fat cursor start size c) : (-1 : Int) ∉ c := by
  intro h
  have := (hc.2.2 _ h).1
  exact absurd this (by decide)

/-- The value `FileEntry()` is an entry reset by `remove`, and holds no file. -/
theorem default_entry (fat : List Int) (cursor : Int) :
    EntryKind fat cursor FileEntry.default ∧
    ∀ c, ¬ LiveChain fat cursor FileEntry.default.starting_block FileEntry.default.size c := by
  refine ⟨Or.inr (Or.inl ⟨rfl, rfl⟩), fun c hc => ?_⟩
  have := (hc.2.2 _ (fileChain_head _ _ _ _ hc.1)).1
  exact absurd this (by decide)

/-- The constructor's state satisfies the invariant. -/
theorem Inv_init : Inv init := by
  have hfree : ∀ (i : Nat) (e : FileEntry), init.root_directory_in_memory[i]? = some e →
      e.starting_block = kEndOfFile := by
    intro i e he
    have hm : e ∈ init.root_directory_in_memory := List.getElem?_mem he
    have := List.eq_of_mem_replicate hm
    rw [this]
  refine ⟨rfl, le_refl _, rfl, fun _ _ _ => rfl, fun p hp => ?_, fun i e he => ?_,
    fun i j e e' c c' _ he _ hc _ => ?_⟩
  · exact absurd hp (List.not_mem_nil p)
  · exact Or.inl (hfree i e he)
  · have := (hc.2.2 _ (fileChain_head _ _ _ _ hc.1)).1
    rw [hfree i e he] at this
    exact absurd this (by decide)

/-- The invariant survives `rename`. -/
theorem Inv_rename (s s' : FATFilesystem) (filename new_filename : List Nat) (st : Status)
    (hinv : Inv s) (h : rename s filename new_filename = some (st, s')) : Inv s' := by
  rcases rename_result s s' filename new_filename st h with hs | ⟨index, e, nm, he, hs⟩
  · rw [hs]; exact hinv
  · subst hs
    refine Inv_update s _ (-1) index { e with name := nm } hinv rfl (fun _ _ => rfl)
      (le_refl _) hinv.block0 hinv.pristine hinv.ledger rfl (hinv.entries index e he) ?_ ?_
    · intro c hc i e' c' hik he' hc'
      exact ⟨hinv.disjoint index i e e' c c' (Ne.symm hik) he he' hc hc',
        hinv.disjoint i index e' e c' c hik he' he hc' hc⟩
    · intro i e' c _ _ hc
      exact LiveChain_not_mem_neg _ _ _ _ _ hc

/-- The invariant survives `remove`. -/
theorem Inv_remove (s s' : FATFilesystem) (filename : List Nat) (st : Status)
    (hinv : Inv s) (h : remove s filename = some (st, s')) : Inv s' := by
  cases st with
  | Error => rw [remove_error s s' filename h]; exact hinv
  | Ok =>
    obtain ⟨index, e, t, _, he, htail, hs⟩ := remove_ok s s' filename h
    have hdef := default_entry
    rcases hinv.entries index e he with hfree | ⟨hdead, _⟩ | ⟨c, hc⟩
    · rw [hfree] at htail
      simp [chainTail, fatAt, kEndOfFile] at htail
    · have hno : spliceBack e.starting_block t s.block_chunk s.fat_table_in_memory
          = s.fat_table_in_memory :=
        spliceBack_no_match _ _ _ _ (fun p hp => by rw [hdead]; exact hinv.ledger p hp)
      rw [hno] at hs
      subst hs
      refine Inv_update s _ (-1) index FileEntry.default hinv rfl (fun _ _ => rfl)
        (le_refl _) hinv.block0 hinv.pristine hinv.ledger rfl (hdef _ _).1 ?_ ?_
      · intro c hc
        exact absurd hc ((hdef _ _).2 c)
      · intro i e' c _ _ hc
        exact LiveChain_not_mem_neg _ _ _ _ _ hc
    · have htc : t ∈ c := chainTail_mem_fileChain _ _ _ _ hc.1 _ _ htail
      have ht := hc.2.2 t htc
      obtain ⟨hl, hfr⟩ :=
        spliceBack_frame e.starting_block t s.block_chunk s.fat_table_in_memory
      subst hs
      refine Inv_update s _ t index FileEntry.default hinv hl
        (fun i hi => hfr i (by omega)) (le_refl _) ?_ ?_ hinv.ledger rfl (hdef _ _).1 ?_ ?_
      · show (spliceBack e.starting_block t s.block_chunk s.fat_table_in_memory)[0]? = _
        rw [hfr 0 (by omega)]
        exact hinv.block0
      · intro i hi hci
        show (spliceBack e.starting_block t s.block_chunk s.fat_table_in_memory)[i]? = _
        have hci' : s.current_starting_block ≤ (i : Int) := hci
        rw [hfr i (by omega)]
        exact hinv.pristine i hi hci'
      · intro c' hc'
        exact absurd hc' ((hdef _ _).2 c')
      · intro i e' c' hik he' hc' hin
        exact hinv.disjoint index i e e' c c' (Ne.symm hik) he he' hc hc' t htc hin

/-- The invariant survives `createFile`. -/
theorem Inv_createFile (s s' : FATFilesystem) (filename : List Nat) (filesize value : Nat)
    (st : Status) (hinv : Inv s)
    (h : createFile s filename filesize value = some (st, s')) : Inv s' := by
  cases st with
  | Error => rw [createFile_error s s' filename filesize value h]; exact hinv
  | Ok =>
    obtain ⟨start, cb, saved, hstart, hwalk, hsaved, _, hdir, hfat, hcur, hledger⟩ :=
      createFile_ok s s' filename filesize value h
    obtain ⟨hcb0, hcb40, _⟩ := fatAt_some _ _ _ hsaved
    rcases findStartBlock_spec _ _ _ _ hstart with hneg | ⟨hge, v, hv, hvne⟩
    · exfalso
      have hnone : fatAt s.fat_table_in_memory start = none := by
        rw [hneg]; simp [fatAt, kEndOfFile]
      have := allocWalk_outside _ _ _ _ _ _ hnone hwalk
      rw [this, hneg] at hcb0
      exact absurd hcb0 (by decide)
    · obtain ⟨hs0, hs40, hsget⟩ := fatAt_some _ _ _ hv
      have hsn : start.toNat < kFatEntries := by omega
      have hinit : initialFat[start.toNat]? = some v := by
        rw [← hinv.pristine start.toNat hsn (by omega)]; exact hsget
      have hs10 : 10 ≤ start := by
        rcases initialFat_entry start.toNat hsn v hinit with ⟨hv1, _⟩ | ⟨_, h10, _, _⟩
        · exact absurd hv1 hvne
        · omega
      obtain ⟨hle, hch⟩ := allocWalk_chain s.fat_table_in_memory filesize
        s.current_starting_block hinv.fat_len hinv.pristine filesize start kBlockSize cb
        hge hs10 hwalk hcb40
      obtain ⟨cnew, hcn, hcin, hcsz⟩ := hch kFatEntries (by omega)
      rw [← hfat] at hcn
      have hframe : ∀ i : Nat, (i : Int) ≠ cb →
          s'.fat_table_in_memory[i]? = s.fat_table_in_memory[i]? := by
        intro i hi
        rw [hfat, List.getElem?_set_ne (by omega)]
      have hnew : LiveChain s'.fat_table_in_memory s'.current_starting_block start
          (toInt32 filesize) cnew := by
        refine ⟨hcn, ?_, fun b hb => ?_⟩
        · have := toInt32_le filesize
          omega
        · have := hcin b hb
          exact ⟨by omega, by omega⟩
      have hold : ∀ (i : Nat) (e : FileEntry) (c : List Int),
          s.root_directory_in_memory[i]? = some e →
          LiveChain s.fat_table_in_memory s.current_starting_block
            e.starting_block e.size c → ∀ b ∈ c, b < start := by
        intro i e c _ hc b hb
        have := (hc.2.2 b hb).2
        omega
      have hcommon : ∀ (k : Nat) (x : FileEntry),
          s'.root_directory_in_memory = s.root_directory_in_memory.set k x →
          EntryKind s'.fat_table_in_memory s'.current_starting_block x →
          (∀ c, LiveChain s'.fat_table_in_memory s'.current_starting_block
              x.starting_block x.size c → c = cnew) →
          Inv s' := by
        intro k x hd hx hxc
        refine Inv_update s s' cb k x hinv (by rw [hfat]; simp) hframe (by omega) ?_ ?_ ?_
          hd hx ?_ ?_
        · rw [hframe 0 (by omega)]; exact hinv.block0
        · intro i hi hci
          rw [hframe i (by omega)]
          exact hinv.pristine i hi (by omega)
        · intro p hp
          rw [hledger] at hp
          rcases List.mem_append.mp hp with hp | hp
          · exact hinv.ledger p hp
          · simp only [List.mem_singleton] at hp
            rw [hp]
            show start ≠ 0
            omega
        · intro c hc i e c' _ he hc'
          rw [hxc c hc]
          refine ⟨fun b hb hb' => ?_, fun b hb' hb => ?_⟩
          · have := hold i e c' he hc' b hb'
            have := (hcin b hb).1
            omega
          · have := hold i e c' he hc' b hb'
            have := (hcin b hb).1
            omega
        · intro i e c _ he hc hin
          have := hold i e c he hc cb hin
          omega
      rcases hdir with hd | ⟨k, e, nm, _, _, hd⟩
      · refine hcommon s.root_directory_in_memory.length FileEntry.default ?_
          (default_entry _ _).1 (fun c hc => absurd hc ((default_entry _ _).2 c))
        rw [hd, List.set_eq_of_length_le (le_refl _)]
      · refine hcommon k _ hd (Or.inr (Or.inr ⟨cnew, hnew⟩)) (fun c hc => ?_)
        have h1 := hc.1
        have h2 := hnew.1
        rw [h2] at h1
        exact (Option.some.inj h1).symm

/-- The invariant survives every command. -/
theorem Inv_step (s s' : FATFilesystem) (op : Op) (st : Status) (hinv : Inv s)
    (h : step s op = some (st, s')) : Inv s' := by
  cases op with
  | create filename filesize value => exact Inv_createFile s s' filename filesize value st hinv h
  | remove filename => exact Inv_remove s s' filename st hinv h
  | rename filename new_filename => exact Inv_rename s s' filename new_filename st hinv h

/-- The invariant survives every sequence of commands. -/
theorem Inv_exec : ∀ (ops : List Op) (s s' : FATFilesystem) (sts : List Status),
    Inv s → exec s ops = some (sts, s') → Inv s' := by
  intro ops
  induction ops with
  | nil =>
    intro s s' sts hinv h
    simp only [exec, Option.some.injEq, Prod.mk.injEq] at h
    rw [← h.2]; exact hinv
  | cons op ops ih =>
    intro s s' sts hinv h
    simp only [exec] at h
    cases hs : step s op with
    | none => simp [hs] at h
    | some r =>
      obtain ⟨st, s1⟩ := r
      simp only [hs] at h
      cases he : exec s1 ops with
      | none => simp [he] at h
      | some r2 =>
        obtain ⟨sts2, s2⟩ := r2
        simp only [he, Option.some.injEq, Prod.mk.injEq] at h
        rw [← h.2]
        exact ih s1 s2 sts2 (Inv_step s s1 op st hinv hs) he

/-- Every reachable state satisfies the invariant. -/
theorem Inv_reachable (s : FATFilesystem) (h : Reachable s) : Inv s := by
  obtain ⟨ops, sts, hexec⟩ := h
  exact Inv_exec ops init s sts Inv_init hexec

/-! ## Size and chain capacity -/

/-- C11. In every state reachable from the constructor's state by any sequence of
`createFile`, `remove` and `rename` calls, every non-free directory entry (starting
block other than `kEndOfFile`) has a chain from its starting block to an end-of-chain
entry, and its size is at most `kBlockSize` times the number of blocks of that chain. -/
theorem size_within_chain_capacity (s : FATFilesystem) (h : Reachable s) :
    ∀ e ∈ s.root_directory_in_memory, e.starting_block ≠ kEndOfFile →
      ∃ chain, fileChain s.fat_table_in_memory kFatEntries e.starting_block = some chain ∧
        e.size ≤ kBlockSize * (chain.length : Int) := by
  intro e he hne
  have hinv := Inv_reachable s h
  obtain ⟨i, hi⟩ := List.mem_iff_getElem?.mp he
  rcases hinv.entries i e hi with hfree | ⟨hdead, hsz⟩ | ⟨c, hc⟩
  · exact absurd hfree hne
  · refine ⟨[0], ?_, ?_⟩
    · have hat : fatAt s.fat_table_in_memory 0 = some kEndOfFile := by
        unfold fatAt
        rw [if_pos ⟨le_refl _, by decide⟩]
        exact hinv.block0
      rw [hdead]
      simp [fileChain, kFatEntries, kTableSize, hat]
    · rw [hsz]; decide
  · exact ⟨c, hc.1, hc.2.1⟩

/-- Witness for `size_within_chain_capacity`: the state after five successful creations
is reachable, and its first entry, of size 2 in block 10, has a chain whose capacity
covers the size. -/
theorem size_within_chain_capacity_witness :
    Reachable fiveFiles
    ∧ ∃ chain, fileChain fiveFiles.fat_table_in_memory kFatEntries 10 = some chain ∧
        (2 : Int) ≤ kBlockSize * (chain.length : Int) := by
  have hr : Reachable fiveFiles :=
    ⟨fiveCreates, [Status.Ok, Status.Ok, Status.Ok, Status.Ok, Status.Ok], by decide!⟩
  exact ⟨hr, size_within_chain_capacity fiveFiles hr
    { name := 97 :: List.replicate 15 0, starting_block := 10, size := 2, last_modified := 0 }
    (List.mem_cons_self _ _) (by decide)⟩

end FAT
